import Mathlib

/-!
Verification development for the sales-analytics aggregation core of the
dashboard application.  The TypeScript sources are shallowly embedded:
JavaScript numbers are modelled as exact rationals together with the three
non-finite IEEE values, loosely typed driver values as a small sum type,
SQL aggregation queries as functions over lists of fact rows, and the
calendar arithmetic of the time-bucketing helpers over a proleptic
Gregorian date type.
-/

/-- Model of an IEEE-754 double as used by the JavaScript code: a finite
value (kept exact as a rational) or one of `NaN`, `+Infinity`, `-Infinity`.
Finite doubles are modelled exactly; rounding of binary floating point is
not modelled. -/
inductive JsNum where
  | fin (q : ℚ)
  | nan
  | posInf
  | negInf
deriving DecidableEq, Repr

/-- JavaScript `Number.isFinite` / global `isFinite` on an already-numeric
value. -/
def JsNum.isFinite : JsNum → Bool
  | .fin _ => true
  | _ => false

/-- JavaScript subtraction `a - b` on doubles. -/
def JsNum.sub : JsNum → JsNum → JsNum
  | .nan, _ => .nan
  | _, .nan => .nan
  | .fin a, .fin b => .fin (a - b)
  | .posInf, .posInf => .nan
  | .posInf, _ => .posInf
  | .negInf, .negInf => .nan
  | .negInf, _ => .negInf
  | .fin _, .posInf => .negInf
  | .fin _, .negInf => .posInf

/-- JavaScript `Math.abs`. -/
def JsNum.abs : JsNum → JsNum
  | .fin a => .fin |a|
  | .nan => .nan
  | .posInf => .posInf
  | .negInf => .posInf

/-- JavaScript division `a / b` on doubles (positive zero assumed for the
zero divisor, which no claim exercises). -/
def JsNum.div : JsNum → JsNum → JsNum
  | .nan, _ => .nan
  | _, .nan => .nan
  | .fin a, .fin b =>
      if b = 0 then (if a = 0 then .nan else if 0 < a then .posInf else .negInf)
      else .fin (a / b)
  | .fin _, .posInf => .fin 0
  | .fin _, .negInf => .fin 0
  | .posInf, .fin b => if 0 ≤ b then .posInf else .negInf
  | .negInf, .fin b => if 0 ≤ b then .negInf else .posInf
  | .posInf, .posInf => .nan
  | .posInf, .negInf => .nan
  | .negInf, .posInf => .nan
  | .negInf, .negInf => .nan

/-- JavaScript multiplication `a * b` on doubles. -/
def JsNum.mul : JsNum → JsNum → JsNum
  | .nan, _ => .nan
  | _, .nan => .nan
  | .fin a, .fin b => .fin (a * b)
  | .fin a, .posInf => if a = 0 then .nan else if 0 < a then .posInf else .negInf
  | .fin a, .negInf => if a = 0 then .nan else if 0 < a then .negInf else .posInf
  | .posInf, .fin b => if b = 0 then .nan else if 0 < b then .posInf else .negInf
  | .negInf, .fin b => if b = 0 then .nan else if 0 < b then .negInf else .posInf
  | .posInf, .posInf => .posInf
  | .posInf, .negInf => .negInf
  | .negInf, .posInf => .negInf
  | .negInf, .negInf => .posInf

/-- JavaScript comparison `x >= 0` (`NaN >= 0` is false). -/
def JsNum.geZero : JsNum → Bool
  | .fin a => decide (0 ≤ a)
  | .posInf => true
  | _ => false

/-- JavaScript `Math.round`: nearest integer, halves toward positive
infinity. -/
def jsMathRound : JsNum → JsNum
  | .fin q => .fin ((⌊q + 1/2⌋ : ℤ) : ℚ)
  | x => x

/-- `round(value, precision)` from the dashboard-summary module:
`Math.round(value * 10^precision) / 10^precision`. -/
def roundTo (value : JsNum) (precision : ℕ) : JsNum :=
  let factor : ℚ := 10 ^ precision
  (jsMathRound (value.mul (.fin factor))).div (.fin factor)

/-- Reference formula used in theorem statements: rounding half-up to four
decimal places. -/
def roundHalfUp4 (q : ℚ) : ℚ :=
  ((⌊q * 10 ^ (4 : ℕ) + 1/2⌋ : ℤ) : ℚ) / 10 ^ (4 : ℕ)

inductive TrendDirection where
  | up
  | down
deriving DecidableEq, Repr

inductive DeltaMode where
  | percent
  | absolute
deriving DecidableEq, Repr

/-- The non-`null` payload of a `DeltaSummary`. -/
structure DeltaValue where
  value : JsNum
  mode : DeltaMode
  direction : TrendDirection
deriving DecidableEq, Repr

/-- `computePercentDelta` from the dashboard-summary module. -/
def computePercentDelta (currentValue previousValue : Option JsNum) :
    Option DeltaValue :=
  match currentValue, previousValue with
  | some c, some p =>
      if !p.isFinite || p = .fin 0 then none
      else
        let delta := ((c.sub p).div p.abs).mul (.fin 100)
        if !delta.isFinite then none
        else
          some { value := roundTo delta 4
                 mode := .percent
                 direction := if delta.geZero then .up else .down }
  | _, _ => none

/-- `computeAbsoluteDelta` from the dashboard-summary module. -/
def computeAbsoluteDelta (currentValue previousValue : Option JsNum) :
    Option DeltaValue :=
  match currentValue, previousValue with
  | some c, some p =>
      if !c.isFinite || !p.isFinite then none
      else
        let delta := c.sub p
        some { value := roundTo delta 4
               mode := .absolute
               direction := if delta.geZero then .up else .down }
  | _, _ => none

/-- A loosely typed scalar as delivered by the store driver
(`number | string | bigint | null` plus decimal wrappers).  The string
branch of the TypeScript union is not modelled here: no claim exercises
string-to-number conversion of row values.  A decimal wrapper is modelled
by the result of its `toNumber()` call, `none` standing for a throw. -/
inductive RawValue where
  | null
  | num (x : JsNum)
  | big (n : ℤ)
  | dec (d : Option JsNum)
deriving DecidableEq, Repr

/-- `toFiniteNumber` from the shared numeric-normalization helpers: convert
unknown input to a finite number, using `fallback` when conversion is not
possible.  Bigint-to-double conversion is modelled exactly. -/
def toFiniteNumber (value : RawValue) (fallback : ℚ) : ℚ :=
  match value with
  | .null => fallback
  | .num (.fin q) => q
  | .num _ => fallback
  | .big n => (n : ℚ)
  | .dec (some (.fin q)) => q
  | .dec _ => fallback

/-- Raw row of the most-sold-products ranking query. -/
structure RawTopProductRow where
  product_category : Option String
  product_family : Option String
  product_reference : Option String
  total_quantity : RawValue
  category_total_quantity : RawValue
  rank : RawValue
deriving DecidableEq, Repr

/-- Output row of the most-sold-products assembler. -/
structure MostSoldProductRow where
  productCategory : String
  productReference : String
  productFamily : Option String
  totalQuantity : ℚ
  categoryTotalQuantity : ℚ
  shareWithinCategory : Option ℚ
  rankWithinCategory : ℚ
deriving DecidableEq, Repr, Inhabited

/-- `mapTopProductRows` from the most-sold-products assembler.  The
truthiness tests `!!row.product_category` and `row.product_reference ||
"N/A"` reject both `null` and the empty string. -/
def mapTopProductRows (rows : List RawTopProductRow) : List MostSoldProductRow :=
  (rows.filter (fun row =>
      match row.product_category with
      | some s => !s.isEmpty
      | none => false)).map (fun row =>
    let totalQuantity := toFiniteNumber row.total_quantity 0
    let categoryTotal := toFiniteNumber row.category_total_quantity 0
    { productCategory := row.product_category.getD ""
      productReference :=
        match row.product_reference with
        | some s => if s.isEmpty then "N/A" else s
        | none => "N/A"
      productFamily := row.product_family
      totalQuantity := totalQuantity
      categoryTotalQuantity := categoryTotal
      shareWithinCategory :=
        if 0 < categoryTotal then some (totalQuantity / categoryTotal) else none
      rankWithinCategory := toFiniteNumber row.rank 0 })

/-- Model of JavaScript `String.prototype.trim`: strip whitespace from
both ends (structurally computable, unlike the built-in `String.trim`). -/
def jsTrim (s : String) : String :=
  ⟨((s.data.dropWhile Char.isWhitespace).reverse.dropWhile
      Char.isWhitespace).reverse⟩

/-- Raw aggregate row of the commercial-responsibles main query. -/
structure CommercialAggRow where
  commercial_responsible : Option String
  total_quantity : RawValue
  total_sales : RawValue
deriving DecidableEq, Repr

/-- `normalizeName` from the commercial-responsibles assembler. -/
def normalizeName (value : Option String) : Option String :=
  match value with
  | some s => let t := jsTrim s; if t.isEmpty then none else some t
  | none => none

/-- One cleaned aggregate entry (the element type of `cleanedAgg`). -/
structure CleanedAgg where
  name : String
  totalQuantity : ℚ
  totalSalesValue : ℚ
deriving DecidableEq, Repr

/-- The map-then-filter producing `cleanedAgg` in
`buildCommercialResponsiblesPayload`. -/
def cleanAggregateRows (rows : List CommercialAggRow) : List CleanedAgg :=
  rows.filterMap (fun r =>
    match normalizeName r.commercial_responsible with
    | some n =>
        some { name := n
               totalQuantity := toFiniteNumber r.total_quantity 0
               totalSalesValue := toFiniteNumber r.total_sales 0 }
    | none => none)

/-- Period bucket of the commercial-responsibles series. -/
structure CommercialPeriodBucket where
  period : String
  year : ℤ
  month : Option ℕ
  salesValue : ℚ
  quantity : ℚ
  deltaSalesValue : Option ℚ
  deltaQuantity : Option ℚ
deriving DecidableEq, Repr

/-- Output row of the commercial-responsibles assembler. -/
structure CommercialResponsibleRow where
  commercialResponsible : String
  totalSalesValue : ℚ
  totalQuantity : ℚ
  shareOfSalesValue : Option ℚ
  shareOfQuantity : Option ℚ
  series : List CommercialPeriodBucket
deriving DecidableEq, Repr, Inhabited

/-- The totals loop of `buildCommercialResponsiblesPayload`: totals within
the returned (possibly limited) set. -/
def commercialTotalQuantity (cleaned : List CleanedAgg) : ℚ :=
  (cleaned.map (·.totalQuantity)).sum

/-- Companion of `commercialTotalQuantity` for sales value. -/
def commercialTotalSalesValue (cleaned : List CleanedAgg) : ℚ :=
  (cleaned.map (·.totalSalesValue)).sum

/-- The row-building map of `buildCommercialResponsiblesPayload` (shares
and series attachment); the per-name series map is passed as a function. -/
def buildCommercialRows (cleaned : List CleanedAgg)
    (seriesByName : String → List CommercialPeriodBucket) :
    List CommercialResponsibleRow :=
  let totalQuantity := commercialTotalQuantity cleaned
  let totalSalesValue := commercialTotalSalesValue cleaned
  cleaned.map (fun agg =>
    { commercialResponsible := agg.name
      totalSalesValue := agg.totalSalesValue
      totalQuantity := agg.totalQuantity
      shareOfSalesValue :=
        if 0 < totalSalesValue then some (agg.totalSalesValue / totalSalesValue)
        else none
      shareOfQuantity :=
        if 0 < totalQuantity then some (agg.totalQuantity / totalQuantity)
        else none
      series := seriesByName agg.name })

/-- Sales-channel selector shared by the two partner-analytics modules. -/
inductive SalesChannel where
  | all
  | direct
  | indirect
deriving DecidableEq, Repr

/-- The four distinct SQL value expressions used to sum a sales value;
constructors are named after the SQL text they stand for. -/
inductive SqlValueExpr where
  | coalesceDirectSales
  | coalesceSalesAltona
  | casePreferNonzeroSalesAltona
  | caseByOrderType
deriving DecidableEq, Repr

/-- The columns of a fact row consulted by the sales-value expressions. -/
structure FactRowChannelCols where
  order_type : String
  sales_altona : Option ℚ
  direct_sales : Option ℚ
deriving DecidableEq, Repr

/-- SQL `COALESCE(col, 0)`. -/
def coalesceQ (v : Option ℚ) : ℚ := v.getD 0

namespace TopPartners

/-- `INDIRECT_ORDER_TYPES` of the top-partners module (note the mojibake
in the second literal, exactly as in the source). -/
def INDIRECT_ORDER_TYPES : List String := ["Permanent direct", "Op√©ration direct"]

/-- `SALES_VALUE_ALL_EXPRESSION` of the top-partners module. -/
def SALES_VALUE_ALL_EXPRESSION : SqlValueExpr := .casePreferNonzeroSalesAltona

/-- `SALES_VALUE_DIRECT_EXPRESSION` of the top-partners module:
`COALESCE(direct_sales, 0)`. -/
def SALES_VALUE_DIRECT_EXPRESSION : SqlValueExpr := .coalesceDirectSales

/-- `SALES_VALUE_INDIRECT_EXPRESSION` of the top-partners module:
`COALESCE(sales_altona, 0)`. -/
def SALES_VALUE_INDIRECT_EXPRESSION : SqlValueExpr := .coalesceSalesAltona

/-- `resolveSalesValueExpression` of the top-partners module. -/
def resolveSalesValueExpression : SalesChannel → SqlValueExpr
  | .direct => SALES_VALUE_INDIRECT_EXPRESSION
  | .indirect => SALES_VALUE_DIRECT_EXPRESSION
  | .all => SALES_VALUE_ALL_EXPRESSION

end TopPartners

namespace CommercialResponsibles

/-- `INDIRECT_ORDER_TYPES` of the commercial-responsibles module. -/
def INDIRECT_ORDER_TYPES : List String := ["Permanent direct", "Opération direct"]

/-- `SALES_VALUE_INDIRECT_EXPRESSION` of the commercial-responsibles
module: `COALESCE(direct_sales, 0)`. -/
def SALES_VALUE_INDIRECT_EXPRESSION : SqlValueExpr := .coalesceDirectSales

/-- `SALES_VALUE_DIRECT_EXPRESSION` of the commercial-responsibles module:
`COALESCE(sales_altona, 0)`. -/
def SALES_VALUE_DIRECT_EXPRESSION : SqlValueExpr := .coalesceSalesAltona

/-- `SALES_VALUE_ALL_EXPRESSION` of the commercial-responsibles module. -/
def SALES_VALUE_ALL_EXPRESSION : SqlValueExpr := .caseByOrderType

/-- `resolveSalesValueExpression` of the commercial-responsibles module. -/
def resolveSalesValueExpression : SalesChannel → SqlValueExpr
  | .direct => SALES_VALUE_DIRECT_EXPRESSION
  | .indirect => SALES_VALUE_INDIRECT_EXPRESSION
  | .all => SALES_VALUE_ALL_EXPRESSION

end CommercialResponsibles

/-- Evaluation of the sales-value expressions against one fact row. -/
def evalSalesValueExpr : SqlValueExpr → FactRowChannelCols → ℚ
  | .coalesceDirectSales, r => coalesceQ r.direct_sales
  | .coalesceSalesAltona, r => coalesceQ r.sales_altona
  | .casePreferNonzeroSalesAltona, r =>
      if coalesceQ r.sales_altona ≠ 0 then coalesceQ r.sales_altona
      else if coalesceQ r.direct_sales ≠ 0 then coalesceQ r.direct_sales
      else (r.sales_altona.or r.direct_sales).getD 0
  | .caseByOrderType, r =>
      if r.order_type ∈ CommercialResponsibles.INDIRECT_ORDER_TYPES then
        coalesceQ r.direct_sales
      else coalesceQ r.sales_altona

/-- Subtract-divide-multiply chain of `computePercentDelta` on finite
values with a nonzero previous value. -/
theorem percentDeltaChain_fin (c p : ℚ) (h : p ≠ 0) :
    (((JsNum.fin c).sub (JsNum.fin p)).div (JsNum.fin p).abs).mul (JsNum.fin 100)
      = JsNum.fin ((c - p) / |p| * 100) := by
  have habs : |p| ≠ 0 := abs_ne_zero.mpr h
  simp [JsNum.sub, JsNum.abs, JsNum.div, JsNum.mul, habs]

/-- `roundTo` on a finite value at precision 4 is half-up rounding to four
decimal places. -/
theorem roundTo_fin (q : ℚ) : roundTo (JsNum.fin q) 4 = JsNum.fin (roundHalfUp4 q) := by
  have h4 : ((10 : ℚ) ^ (4 : ℕ)) ≠ 0 := by norm_num
  simp [roundTo, JsNum.mul, jsMathRound, JsNum.div, h4, roundHalfUp4]

/-- C6: the claim states the reported percent value equals
`(current - previous) / abs(previous) * 100` exactly; the code rounds that
quantity to four decimal places first, so at current 1, previous 3 the
reported value differs from the formula. -/
theorem c6_counterexample :
    computePercentDelta (some (JsNum.fin 1)) (some (JsNum.fin 3))
      = some { value := JsNum.fin (-666667/10000)
               mode := .percent
               direction := .down }
    ∧ (((JsNum.fin 1).sub (JsNum.fin 3)).div (JsNum.fin 3).abs).mul (JsNum.fin 100)
        = JsNum.fin (-200/3)
    ∧ JsNum.fin (-666667/10000) ≠ JsNum.fin (-200/3) := by
  have h3 : (3 : ℚ) ≠ 0 := by norm_num
  have hchain := percentDeltaChain_fin 1 3 h3
  have hval : ((1 : ℚ) - 3) / |(3 : ℚ)| * 100 = -200/3 := by norm_num
  refine ⟨?_, by rw [hchain, hval], ?_⟩
  · simp only [computePercentDelta, JsNum.isFinite, Bool.not_true, Bool.false_or]
    rw [if_neg (by simp)]
    rw [hchain, hval]
    simp only [JsNum.isFinite, Bool.not_true, Bool.false_eq_true, if_false]
    rw [roundTo_fin]
    have hr : roundHalfUp4 (-200/3) = -666667/10000 := by
      rw [roundHalfUp4]
      norm_num
    rw [hr]
    simp only [JsNum.geZero]
    norm_num
  · simp only [ne_eq, JsNum.fin.injEq]
    norm_num

/-- C6 (amended): the percent delta is null when either value is null or
the previous value is zero or non-finite; otherwise it reports
`(current - previous) / abs(previous) * 100` rounded half-up to four
decimal places, with the direction computed from the unrounded delta
(up iff it is ≥ 0); the absolute delta is null unless both values are
finite and otherwise reports `current - previous` rounded the same way. -/
theorem c6_amended (c p : ℚ) (h : p ≠ 0) :
    computePercentDelta (some (JsNum.fin c)) (some (JsNum.fin p))
      = some { value := JsNum.fin (roundHalfUp4 ((c - p) / |p| * 100))
               mode := .percent
               direction := if 0 ≤ (c - p) / |p| * 100 then .up else .down }
    ∧ computePercentDelta (some (JsNum.fin c)) (some (JsNum.fin 0)) = none
    ∧ computePercentDelta (some (JsNum.fin c)) (some JsNum.nan) = none
    ∧ computePercentDelta (some (JsNum.fin c)) (some JsNum.posInf) = none
    ∧ computePercentDelta (some (JsNum.fin c)) none = none
    ∧ computePercentDelta none (some (JsNum.fin p)) = none
    ∧ computeAbsoluteDelta (some (JsNum.fin c)) (some (JsNum.fin p))
      = some { value := JsNum.fin (roundHalfUp4 (c - p))
               mode := .absolute
               direction := if 0 ≤ c - p then .up else .down }
    ∧ computeAbsoluteDelta (some JsNum.nan) (some (JsNum.fin p)) = none
    ∧ computeAbsoluteDelta (some (JsNum.fin c)) (some JsNum.posInf) = none := by
  refine ⟨?_, by simp [computePercentDelta], by simp [computePercentDelta, JsNum.isFinite],
    by simp [computePercentDelta, JsNum.isFinite], by simp [computePercentDelta],
    by simp [computePercentDelta], ?_, by simp [computeAbsoluteDelta, JsNum.isFinite],
    by simp [computeAbsoluteDelta, JsNum.isFinite]⟩
  · simp only [computePercentDelta, JsNum.isFinite, Bool.not_true, Bool.false_or]
    rw [if_neg (by simp [h])]
    rw [percentDeltaChain_fin c p h]
    simp only [JsNum.isFinite, Bool.not_true, Bool.false_eq_true, if_false]
    rw [roundTo_fin]
    simp [JsNum.geZero]
  · simp only [computeAbsoluteDelta, JsNum.isFinite, Bool.not_true, Bool.false_or,
      Bool.or_self, Bool.false_eq_true, if_false]
    rw [show (JsNum.fin c).sub (JsNum.fin p) = JsNum.fin (c - p) from rfl]
    rw [roundTo_fin]
    simp [JsNum.geZero]

/-- Witness for the amended C6 theorem at current 110, previous 100: the
delta is exactly 10 percent, direction up. -/
theorem c6_amended_witness :
    computePercentDelta (some (JsNum.fin 110)) (some (JsNum.fin 100))
      = some { value := JsNum.fin (roundHalfUp4 ((110 - 100) / |(100 : ℚ)| * 100))
               mode := .percent
               direction := .up } := by
  have h := (c6_amended 110 100 (by norm_num)).1
  rw [h]
  norm_num

/-- C5: a negative group total makes the share null even though the total
is neither zero nor non-finite, contradicting the claim that the share
then equals `metricValue / total`. -/
theorem c5_counterexample :
    (mapTopProductRows
        [{ product_category := some "Cat"
           product_family := none
           product_reference := some "R"
           total_quantity := .num (.fin 1)
           category_total_quantity := .num (.fin (-2))
           rank := .num (.fin 1) }]).map (·.shareWithinCategory) = [none]
    ∧ (none : Option ℚ) ≠ some (1 / (-2) : ℚ) := by
  constructor
  · rfl
  · decide

/-- A guarded share is none exactly when the total is not positive. -/
theorem shareGuard_none_iff (x t : ℚ) :
    ((if 0 < t then some (x / t) else none) = none) ↔ t ≤ 0 := by
  by_cases h : 0 < t
  · simp [h, not_le.mpr h]
  · simp [h, not_lt.mp h]

/-- A guarded share equals the quotient when the total is positive. -/
theorem shareGuard_pos (x t : ℚ) :
    0 < t → (if 0 < t then some (x / t) else none) = some (x / t) := by
  intro h
  exact if_pos h

/-- C5 (amended): every share (share within category, share of sales
value, share of quantity) is null exactly when its group total is not
strictly positive (in particular when it is zero, and non-finite totals
having been normalized to the zero fallback), and equals
`metricValue / total` whenever the total is strictly positive. -/
theorem c5_amended (rows : List RawTopProductRow) (cleaned : List CleanedAgg)
    (seriesByName : String → List CommercialPeriodBucket)
    (r : MostSoldProductRow) (s : CommercialResponsibleRow)
    (hr : r ∈ mapTopProductRows rows)
    (hs : s ∈ buildCommercialRows cleaned seriesByName) :
    (r.shareWithinCategory = none ↔ r.categoryTotalQuantity ≤ 0)
    ∧ (0 < r.categoryTotalQuantity →
        r.shareWithinCategory = some (r.totalQuantity / r.categoryTotalQuantity))
    ∧ (s.shareOfSalesValue = none ↔ commercialTotalSalesValue cleaned ≤ 0)
    ∧ (0 < commercialTotalSalesValue cleaned →
        s.shareOfSalesValue
          = some (s.totalSalesValue / commercialTotalSalesValue cleaned))
    ∧ (s.shareOfQuantity = none ↔ commercialTotalQuantity cleaned ≤ 0)
    ∧ (0 < commercialTotalQuantity cleaned →
        s.shareOfQuantity = some (s.totalQuantity / commercialTotalQuantity cleaned)) := by
  simp only [mapTopProductRows] at hr
  obtain ⟨row, -, rfl⟩ := List.mem_map.1 hr
  simp only [buildCommercialRows] at hs
  obtain ⟨agg, -, rfl⟩ := List.mem_map.1 hs
  refine ⟨shareGuard_none_iff _ _, shareGuard_pos _ _, shareGuard_none_iff _ _,
    shareGuard_pos _ _, shareGuard_none_iff _ _, shareGuard_pos _ _⟩

/-- A concrete most-sold-products row used by the C5 witness. -/
def c5WitnessRawRow : RawTopProductRow :=
  { product_category := some "A", product_family := none
    product_reference := some "R", total_quantity := .num (.fin 1)
    category_total_quantity := .num (.fin 2), rank := .num (.fin 1) }

/-- A concrete cleaned aggregate used by the C5 witness. -/
def c5WitnessAgg : CleanedAgg :=
  { name := "N", totalQuantity := 1, totalSalesValue := 1 }

/-- Witness for the amended C5 theorem on a one-row dataset with category
total 2 and a one-entry commercial aggregate. -/
theorem c5_amended_witness :
    ∃ r ∈ mapTopProductRows [c5WitnessRawRow],
      r.categoryTotalQuantity = 2
      ∧ (r.shareWithinCategory = none ↔ r.categoryTotalQuantity ≤ 0)
      ∧ r.shareWithinCategory = some (r.totalQuantity / r.categoryTotalQuantity) := by
  have hmem : (mapTopProductRows [c5WitnessRawRow]).headI
      ∈ mapTopProductRows [c5WitnessRawRow] := List.mem_cons_self _ _
  have hmem2 : (buildCommercialRows [c5WitnessAgg] (fun _ => [])).headI
      ∈ buildCommercialRows [c5WitnessAgg] (fun _ => []) := List.mem_cons_self _ _
  refine ⟨(mapTopProductRows [c5WitnessRawRow]).headI, hmem, rfl, ?_, ?_⟩
  · exact (c5_amended [c5WitnessRawRow] [c5WitnessAgg] (fun _ => [])
      _ _ hmem hmem2).1
  · refine (c5_amended [c5WitnessRawRow] [c5WitnessAgg] (fun _ => [])
      _ _ hmem hmem2).2.1 ?_
    show (0 : ℚ) < 2
    norm_num

/-- C3: the claim asserts that the two assemblers back the same selected
channel with different stored columns; in fact both resolve "direct" to
`COALESCE(sales_altona, 0)` and "indirect" to `COALESCE(direct_sales, 0)`
(shown here also evaluated on a concrete row with sales_altona 7 and
direct_sales 3). -/
theorem c3_counterexample :
    TopPartners.resolveSalesValueExpression .direct
      = CommercialResponsibles.resolveSalesValueExpression .direct
    ∧ TopPartners.resolveSalesValueExpression .indirect
      = CommercialResponsibles.resolveSalesValueExpression .indirect
    ∧ evalSalesValueExpr (TopPartners.resolveSalesValueExpression .direct)
        { order_type := "x", sales_altona := some 7, direct_sales := some 3 } = 7
    ∧ evalSalesValueExpr (CommercialResponsibles.resolveSalesValueExpression .direct)
        { order_type := "x", sales_altona := some 7, direct_sales := some 3 } = 7
    ∧ evalSalesValueExpr (TopPartners.resolveSalesValueExpression .indirect)
        { order_type := "x", sales_altona := some 7, direct_sales := some 3 } = 3
    ∧ evalSalesValueExpr (CommercialResponsibles.resolveSalesValueExpression .indirect)
        { order_type := "x", sales_altona := some 7, direct_sales := some 3 } = 3 := by
  refine ⟨rfl, rfl, by decide, by decide, by decide, by decide⟩

/-- C3 (amended): both assemblers use the same channel-to-column pairing —
"direct" is backed by `sales_altona` and "indirect" by `direct_sales` in
both — and the apparent asymmetry is only in the names of the module-local
constants, which are swapped between the two modules; the modules differ
only in their "all" expressions. -/
theorem c3_amended (r : FactRowChannelCols) :
    evalSalesValueExpr (TopPartners.resolveSalesValueExpression .direct) r
      = coalesceQ r.sales_altona
    ∧ evalSalesValueExpr (TopPartners.resolveSalesValueExpression .indirect) r
      = coalesceQ r.direct_sales
    ∧ evalSalesValueExpr (CommercialResponsibles.resolveSalesValueExpression .direct) r
      = coalesceQ r.sales_altona
    ∧ evalSalesValueExpr (CommercialResponsibles.resolveSalesValueExpression .indirect) r
      = coalesceQ r.direct_sales
    ∧ TopPartners.SALES_VALUE_INDIRECT_EXPRESSION
      = CommercialResponsibles.SALES_VALUE_DIRECT_EXPRESSION
    ∧ TopPartners.SALES_VALUE_DIRECT_EXPRESSION
      = CommercialResponsibles.SALES_VALUE_INDIRECT_EXPRESSION
    ∧ TopPartners.SALES_VALUE_ALL_EXPRESSION
      ≠ CommercialResponsibles.SALES_VALUE_ALL_EXPRESSION := by
  exact ⟨rfl, rfl, rfl, rfl, rfl, rfl, by decide⟩

/-- Combining diacritical marks stripped by `canonicalizePartnerKey`
(the U+0300 – U+036F block). -/
def isCombiningMark (c : Char) : Bool :=
  decide (0x300 ≤ c.toNat ∧ c.toNat ≤ 0x36F)

/-- Unicode NFKD decomposition, modelled on the Latin-1 letters used by
the partner data (base letter plus combining mark); characters outside the
table decompose to themselves. -/
def nfkdTable : List (Char × List Char) :=
  [ ('À', ['A', '̀']), ('Á', ['A', '́']), ('Â', ['A', '̂'])
  , ('Ã', ['A', '̃']), ('Ä', ['A', '̈']), ('Å', ['A', '̊'])
  , ('Ç', ['C', '̧']), ('È', ['E', '̀']), ('É', ['E', '́'])
  , ('Ê', ['E', '̂']), ('Ë', ['E', '̈']), ('Ì', ['I', '̀'])
  , ('Í', ['I', '́']), ('Î', ['I', '̂']), ('Ï', ['I', '̈'])
  , ('Ñ', ['N', '̃']), ('Ò', ['O', '̀']), ('Ó', ['O', '́'])
  , ('Ô', ['O', '̂']), ('Õ', ['O', '̃']), ('Ö', ['O', '̈'])
  , ('Ù', ['U', '̀']), ('Ú', ['U', '́']), ('Û', ['U', '̂'])
  , ('Ü', ['U', '̈']), ('Ý', ['Y', '́']), ('à', ['a', '̀'])
  , ('á', ['a', '́']), ('â', ['a', '̂']), ('ã', ['a', '̃'])
  , ('ä', ['a', '̈']), ('å', ['a', '̊']), ('ç', ['c', '̧'])
  , ('è', ['e', '̀']), ('é', ['e', '́']), ('ê', ['e', '̂'])
  , ('ë', ['e', '̈']), ('ì', ['i', '̀']), ('í', ['i', '́'])
  , ('î', ['i', '̂']), ('ï', ['i', '̈']), ('ñ', ['n', '̃'])
  , ('ò', ['o', '̀']), ('ó', ['o', '́']), ('ô', ['o', '̂'])
  , ('õ', ['o', '̃']), ('ö', ['o', '̈']), ('ù', ['u', '̀'])
  , ('ú', ['u', '́']), ('û', ['u', '̂']), ('ü', ['u', '̈'])
  , ('ý', ['y', '́']), ('ÿ', ['y', '̈']) ]

/-- NFKD decomposition of one character. -/
def nfkdChar (c : Char) : List Char :=
  match nfkdTable.lookup c with
  | some l => l
  | none => [c]

/-- Lowercase ASCII letter or digit (the characters the final
`[^a-z0-9]` replacement keeps). -/
def isLowerAlnum (c : Char) : Bool :=
  decide (('a' ≤ c ∧ c ≤ 'z') ∨ ('0' ≤ c ∧ c ≤ '9'))

/-- `canonicalizePartnerKey` from the top-partners module: NFKD-normalize,
strip combining diacritics, lowercase, strip everything that is not a
lowercase ASCII letter or digit. -/
def canonicalizePartnerKey (name : String) : String :=
  ⟨(((name.data.flatMap nfkdChar).filter (fun c => !isCombiningMark c)).map
      Char.toLower).filter isLowerAlnum⟩

/-- Value of one ASCII digit, `none` for non-digits. -/
def charDigit? (c : Char) : Option ℕ :=
  if '0' ≤ c ∧ c ≤ '9' then some (c.toNat - '0'.toNat) else none

/-- Worker of the collation tokenizer; the accumulator carries the value
of the digit run being read. -/
def collTokensGo : Option ℕ → List Char → List (ℕ ⊕ Char)
  | some n, [] => [.inl n]
  | none, [] => []
  | acc, c :: cs =>
    match charDigit? c, acc with
    | some d, some n => collTokensGo (some (n * 10 + d)) cs
    | some d, none => collTokensGo (some d) cs
    | none, some n => .inl n :: .inr c :: collTokensGo none cs
    | none, none => .inr c :: collTokensGo none cs

/-- Tokenization used by the numeric-aware collation model: maximal digit
runs become numbers, all other characters stand alone. -/
def collTokens (l : List Char) : List (ℕ ⊕ Char) :=
  collTokensGo none l

/-- Comparison of collation tokens: numbers sort numerically and before
letters; characters compare case-insensitively by code point. -/
def tokenCmp : (ℕ ⊕ Char) → (ℕ ⊕ Char) → Ordering
  | .inl m, .inl n => compare m n
  | .inl _, .inr _ => .lt
  | .inr _, .inl _ => .gt
  | .inr a, .inr b => compare a.toLower.toNat b.toLower.toNat

/-- Lexicographic extension of `tokenCmp`. -/
def lexTokenCmp : List (ℕ ⊕ Char) → List (ℕ ⊕ Char) → Ordering
  | [], [] => .eq
  | [], _ :: _ => .lt
  | _ :: _, [] => .gt
  | a :: as_, b :: bs =>
    match tokenCmp a b with
    | .eq => lexTokenCmp as_ bs
    | o => o

/-- Model of `String.prototype.localeCompare` with options
`sensitivity: "accent", numeric: true`: case differences compare equal,
digit runs compare numerically.  (Locale-specific tailorings of the ICU
collator beyond these two effects are not modelled.) -/
def localeCompareAccentNumeric (a b : String) : Ordering :=
  lexTokenCmp (collTokens a.data) (collTokens b.data)

/-- `choosePreferredDisplayName` from the top-partners module: longer
string wins; equal lengths fall back to the accent-insensitive
numeric-aware comparison, the lower string winning; the incumbent survives
a tie. -/
def choosePreferredDisplayName (existing candidate : String) : String :=
  if existing.isEmpty then candidate
  else if candidate.isEmpty then existing
  else if existing.length < candidate.length then candidate
  else if candidate.length < existing.length then existing
  else if localeCompareAccentNumeric candidate existing = .lt then candidate
  else existing

/-- `normalizePartnerName` from the top-partners module. -/
def normalizePartnerName (name : Option String) : Option String :=
  match name with
  | some s => let t := jsTrim s; if t.isEmpty then none else some t
  | none => none

/-- Raw aggregate row of the top-partners main query. -/
structure PartnerAggRow where
  partner_name : Option String
  total_quantity : RawValue
  total_sales : RawValue
deriving Repr

/-- A canonical partner bucket.  The `years` breakdown is populated by a
second query outside the fold under study and stays empty here. -/
structure CanonicalBucket where
  canonicalKey : String
  displayName : String
  variants : List String
  totalQuantity : ℚ
  totalSalesValue : ℚ
  years : List (ℤ × ℚ × ℚ)
  ordinal : ℕ
deriving Repr

/-- JS `Set.prototype.add` on an insertion-ordered variant list. -/
def addVariant (variants : List String) (v : String) : List String :=
  if v ∈ variants then variants else variants ++ [v]

/-- In-place update of the bucket stored at one key of the
insertion-ordered association list (the JS code mutates the bucket object
held in the `Map`). -/
def updateBucket (m : List (String × CanonicalBucket)) (k : String)
    (g : CanonicalBucket → CanonicalBucket) : List (String × CanonicalBucket) :=
  match m with
  | [] => []
  | p :: ps =>
      if p.1 = k then (p.1, g p.2) :: updateBucket ps k g
      else p :: updateBucket ps k g

/-- One step of the bucket-merging `forEach` loop of
`buildTopPartnersPayload`; the bucket map is an insertion-ordered
association list, like a JS `Map`. -/
def insertAggRow (m : List (String × CanonicalBucket)) (idx : ℕ)
    (row : PartnerAggRow) : List (String × CanonicalBucket) :=
  match normalizePartnerName row.partner_name with
  | none => m
  | some partnerName =>
    let canonicalKey := canonicalizePartnerKey partnerName
    if canonicalKey.isEmpty then m
    else
      let totalQuantity := toFiniteNumber row.total_quantity 0
      let totalSalesValue := toFiniteNumber row.total_sales 0
      match m.find? (fun p => decide (p.1 = canonicalKey)) with
      | none =>
          m ++ [(canonicalKey,
            { canonicalKey := canonicalKey
              displayName := partnerName
              variants := [partnerName]
              totalQuantity := totalQuantity
              totalSalesValue := totalSalesValue
              years := []
              ordinal := idx })]
      | some _ =>
          updateBucket m canonicalKey (fun b =>
            { b with
              variants := addVariant b.variants partnerName
              displayName :=
                choosePreferredDisplayName b.displayName partnerName
              ordinal := min b.ordinal idx
              totalQuantity := b.totalQuantity + totalQuantity
              totalSalesValue := b.totalSalesValue + totalSalesValue })

/-- The indexed `forEach` loop folding raw aggregate rows into canonical
buckets. -/
def foldPartnerBucketsAux (idx : ℕ) (m : List (String × CanonicalBucket)) :
    List PartnerAggRow → List (String × CanonicalBucket)
  | [] => m
  | r :: rs => foldPartnerBucketsAux (idx + 1) (insertAggRow m idx r) rs

/-- The complete bucket-merging fold of `buildTopPartnersPayload`. -/
def foldPartnerBuckets (rows : List PartnerAggRow) :
    List (String × CanonicalBucket) :=
  foldPartnerBucketsAux 0 [] rows

/-- Lookup in the bucket map. -/
def findBucket (m : List (String × CanonicalBucket)) (k : String) :
    Option CanonicalBucket :=
  (m.find? (fun p => decide (p.1 = k))).map (·.2)

/-- Total quantity of the bucket at key `k` (0 when absent). -/
def bucketTotalQuantity (m : List (String × CanonicalBucket)) (k : String) : ℚ :=
  match findBucket m k with
  | some b => b.totalQuantity
  | none => 0

/-- Total sales value of the bucket at key `k` (0 when absent). -/
def bucketTotalSalesValue (m : List (String × CanonicalBucket)) (k : String) : ℚ :=
  match findBucket m k with
  | some b => b.totalSalesValue
  | none => 0

/-- Variant set of the bucket at key `k` (empty when absent). -/
def bucketVariants (m : List (String × CanonicalBucket)) (k : String) :
    List String :=
  match findBucket m k with
  | some b => b.variants
  | none => []

/-- Whether a raw row contributes to the bucket at key `k`. -/
def rowHasKey (row : PartnerAggRow) (k : String) : Bool :=
  match normalizePartnerName row.partner_name with
  | some n =>
      !(canonicalizePartnerKey n).isEmpty
        && decide (canonicalizePartnerKey n = k)
  | none => false

/-- `findBucket` on a cons cell. -/
theorem findBucket_cons (p : String × CanonicalBucket)
    (ps : List (String × CanonicalBucket)) (k : String) :
    findBucket (p :: ps) k = if p.1 = k then some p.2 else findBucket ps k := by
  by_cases h : p.1 = k <;>
    simp [findBucket, List.find?_cons_of_pos, List.find?_cons_of_neg, h]

/-- `findBucket` at the updated key. -/
theorem findBucket_updateBucket_self (m : List (String × CanonicalBucket))
    (ck : String) (g : CanonicalBucket → CanonicalBucket) :
    findBucket (updateBucket m ck g) ck = (findBucket m ck).map g := by
  induction m with
  | nil => simp [updateBucket, findBucket]
  | cons p ps ih =>
    by_cases hp : p.1 = ck
    · simp [updateBucket, hp, findBucket_cons]
    · simp [updateBucket, hp, findBucket_cons, ih]

/-- `findBucket` at any other key is unchanged by an update. -/
theorem findBucket_updateBucket_ne (m : List (String × CanonicalBucket))
    (k ck : String) (g : CanonicalBucket → CanonicalBucket) (h : ¬ k = ck) :
    findBucket (updateBucket m ck g) k = findBucket m k := by
  induction m with
  | nil => simp [updateBucket]
  | cons p ps ih =>
    have h2 : ¬ ck = k := fun e => h e.symm
    by_cases hp : p.1 = ck
    · have hpk : ¬ p.1 = k := fun e => h (e.symm.trans hp)
      simp [updateBucket, hp, findBucket_cons, hpk, ih, h2]
    · by_cases hpk : p.1 = k <;>
        simp [updateBucket, hp, findBucket_cons, hpk, ih, h, h2]

/-- `findBucket` through appending a fresh bucket. -/
theorem findBucket_append_single (m : List (String × CanonicalBucket))
    (ck : String) (b : CanonicalBucket) (k : String) :
    findBucket (m ++ [(ck, b)]) k
      = match findBucket m k with
        | some x => some x
        | none => if ck = k then some b else none := by
  unfold findBucket
  rw [List.find?_append]
  cases h : m.find? (fun p => decide (p.1 = k)) with
  | some x => simp [h, Option.or]
  | none =>
    by_cases hk : ck = k <;>
      simp [h, Option.or, List.find?_cons_of_pos, List.find?_cons_of_neg, hk]

/-- Effect of one fold step on the bucket found at any key. -/
theorem findBucket_insertAggRow (m : List (String × CanonicalBucket))
    (idx : ℕ) (r : PartnerAggRow) (k : String) :
    findBucket (insertAggRow m idx r) k
      = if rowHasKey r k then
          match findBucket m k, normalizePartnerName r.partner_name with
          | some b, some n =>
              some { b with
                variants := addVariant b.variants n
                displayName := choosePreferredDisplayName b.displayName n
                ordinal := min b.ordinal idx
                totalQuantity := b.totalQuantity + toFiniteNumber r.total_quantity 0
                totalSalesValue :=
                  b.totalSalesValue + toFiniteNumber r.total_sales 0 }
          | none, some n =>
              some { canonicalKey := k
                     displayName := n
                     variants := [n]
                     totalQuantity := toFiniteNumber r.total_quantity 0
                     totalSalesValue := toFiniteNumber r.total_sales 0
                     years := []
                     ordinal := idx }
          | _, none => findBucket m k
        else findBucket m k := by
  cases hn : normalizePartnerName r.partner_name with
  | none => simp [insertAggRow, rowHasKey, hn]
  | some n =>
    cases hck : (canonicalizePartnerKey n).isEmpty with
    | true => simp [insertAggRow, rowHasKey, hn, hck]
    | false =>
      by_cases hk : canonicalizePartnerKey n = k
      · subst hk
        cases hf : m.find?
            (fun p => decide (p.1 = canonicalizePartnerKey n)) with
        | none =>
          have hfb : findBucket m (canonicalizePartnerKey n) = none := by
            simp [findBucket, hf]
          simp [insertAggRow, rowHasKey, hn, hck, hf,
            findBucket_append_single, hfb]
        | some q =>
          have hfb : findBucket m (canonicalizePartnerKey n) = some q.2 := by
            simp [findBucket, hf]
          simp [insertAggRow, rowHasKey, hn, hck, hf,
            findBucket_updateBucket_self, hfb]
      · have hrk : rowHasKey r k = false := by
          simp [rowHasKey, hn, hk]
        have hk2 : ¬ k = canonicalizePartnerKey n := fun e => hk e.symm
        cases hf : m.find?
            (fun p => decide (p.1 = canonicalizePartnerKey n)) with
        | none =>
          simp only [insertAggRow, hn, hck, hf, Bool.false_eq_true, if_false,
            findBucket_append_single, hrk]
          cases hfk : findBucket m k with
          | some x => simp
          | none => simp [hk]
        | some q =>
          simp [insertAggRow, hn, hck, hf, hrk,
            findBucket_updateBucket_ne m k _ _ hk2]

/-- Membership in `addVariant`. -/
theorem mem_addVariant (vs : List String) (n v : String) :
    v ∈ addVariant vs n ↔ v ∈ vs ∨ v = n := by
  unfold addVariant
  by_cases h : n ∈ vs
  · simp only [if_pos h]
    exact ⟨Or.inl, fun hh => hh.elim id (fun e => e ▸ h)⟩
  · simp [h]

/-- Quantity characterization of one fold step. -/
theorem bucketTotalQuantity_insertAggRow (m : List (String × CanonicalBucket))
    (idx : ℕ) (r : PartnerAggRow) (k : String) :
    bucketTotalQuantity (insertAggRow m idx r) k
      = bucketTotalQuantity m k
        + (if rowHasKey r k then toFiniteNumber r.total_quantity 0 else 0) := by
  unfold bucketTotalQuantity
  rw [findBucket_insertAggRow]
  cases hrk : rowHasKey r k with
  | false => simp
  | true =>
    cases hn : normalizePartnerName r.partner_name with
    | none => simp [rowHasKey, hn] at hrk
    | some n => cases hfb : findBucket m k <;> simp [hfb]

/-- Sales-value characterization of one fold step. -/
theorem bucketTotalSalesValue_insertAggRow (m : List (String × CanonicalBucket))
    (idx : ℕ) (r : PartnerAggRow) (k : String) :
    bucketTotalSalesValue (insertAggRow m idx r) k
      = bucketTotalSalesValue m k
        + (if rowHasKey r k then toFiniteNumber r.total_sales 0 else 0) := by
  unfold bucketTotalSalesValue
  rw [findBucket_insertAggRow]
  cases hrk : rowHasKey r k with
  | false => simp
  | true =>
    cases hn : normalizePartnerName r.partner_name with
    | none => simp [rowHasKey, hn] at hrk
    | some n => cases hfb : findBucket m k <;> simp [hfb]

/-- Variant-set characterization of one fold step. -/
theorem mem_bucketVariants_insertAggRow (m : List (String × CanonicalBucket))
    (idx : ℕ) (r : PartnerAggRow) (k : String) (v : String) :
    v ∈ bucketVariants (insertAggRow m idx r) k
      ↔ v ∈ bucketVariants m k
        ∨ (rowHasKey r k ∧ normalizePartnerName r.partner_name = some v) := by
  unfold bucketVariants
  rw [findBucket_insertAggRow]
  cases hrk : rowHasKey r k with
  | false => simp
  | true =>
    cases hn : normalizePartnerName r.partner_name with
    | none => simp [rowHasKey, hn] at hrk
    | some n =>
      cases hfb : findBucket m k with
      | none => simp [hfb, eq_comm]
      | some b => simp [hfb, mem_addVariant, eq_comm]

/-- Quantity totals through the whole indexed fold. -/
theorem bucketTotalQuantity_foldAux (rows : List PartnerAggRow) :
    ∀ (idx : ℕ) (m : List (String × CanonicalBucket)) (k : String),
    bucketTotalQuantity (foldPartnerBucketsAux idx m rows) k
      = bucketTotalQuantity m k
        + ((rows.filter (fun r => rowHasKey r k)).map
            (fun r => toFiniteNumber r.total_quantity 0)).sum := by
  induction rows with
  | nil => intro idx m k; simp [foldPartnerBucketsAux]
  | cons r rs ih =>
    intro idx m k
    rw [foldPartnerBucketsAux, ih, bucketTotalQuantity_insertAggRow]
    cases hrk : rowHasKey r k with
    | true => simp [List.filter_cons, hrk, add_assoc]
    | false => simp [List.filter_cons, hrk]

/-- Sales-value totals through the whole indexed fold. -/
theorem bucketTotalSalesValue_foldAux (rows : List PartnerAggRow) :
    ∀ (idx : ℕ) (m : List (String × CanonicalBucket)) (k : String),
    bucketTotalSalesValue (foldPartnerBucketsAux idx m rows) k
      = bucketTotalSalesValue m k
        + ((rows.filter (fun r => rowHasKey r k)).map
            (fun r => toFiniteNumber r.total_sales 0)).sum := by
  induction rows with
  | nil => intro idx m k; simp [foldPartnerBucketsAux]
  | cons r rs ih =>
    intro idx m k
    rw [foldPartnerBucketsAux, ih, bucketTotalSalesValue_insertAggRow]
    cases hrk : rowHasKey r k with
    | true => simp [List.filter_cons, hrk, add_assoc]
    | false => simp [List.filter_cons, hrk]

/-- Variant sets through the whole indexed fold. -/
theorem mem_bucketVariants_foldAux (rows : List PartnerAggRow) :
    ∀ (idx : ℕ) (m : List (String × CanonicalBucket)) (k v : String),
    v ∈ bucketVariants (foldPartnerBucketsAux idx m rows) k
      ↔ v ∈ bucketVariants m k
        ∨ ∃ r ∈ rows, normalizePartnerName r.partner_name = some v
            ∧ rowHasKey r k := by
  induction rows with
  | nil => intro idx m k v; simp [foldPartnerBucketsAux]
  | cons r rs ih =>
    intro idx m k v
    rw [foldPartnerBucketsAux, ih, mem_bucketVariants_insertAggRow]
    constructor
    · rintro ((hm | ⟨hk, hn⟩) | ⟨r', hr', hn', hk'⟩)
      · exact Or.inl hm
      · exact Or.inr ⟨r, List.mem_cons_self _ _, hn, hk⟩
      · exact Or.inr ⟨r', List.mem_cons_of_mem _ hr', hn', hk'⟩
    · rintro (hm | ⟨r', hr', hn', hk'⟩)
      · exact Or.inl (Or.inl hm)
      · rcases List.mem_cons.1 hr' with h | h
        · exact Or.inl (Or.inr ⟨h ▸ hk', h ▸ hn'⟩)
        · exact Or.inr ⟨r', h, hn', hk'⟩

/-- Quantity total of a bucket of the complete fold. -/
theorem bucketTotalQuantity_fold (rows : List PartnerAggRow) (k : String) :
    bucketTotalQuantity (foldPartnerBuckets rows) k
      = ((rows.filter (fun r => rowHasKey r k)).map
          (fun r => toFiniteNumber r.total_quantity 0)).sum := by
  rw [foldPartnerBuckets, bucketTotalQuantity_foldAux]
  simp [bucketTotalQuantity, findBucket]

/-- Sales-value total of a bucket of the complete fold. -/
theorem bucketTotalSalesValue_fold (rows : List PartnerAggRow) (k : String) :
    bucketTotalSalesValue (foldPartnerBuckets rows) k
      = ((rows.filter (fun r => rowHasKey r k)).map
          (fun r => toFiniteNumber r.total_sales 0)).sum := by
  rw [foldPartnerBuckets, bucketTotalSalesValue_foldAux]
  simp [bucketTotalSalesValue, findBucket]

/-- Variant membership in a bucket of the complete fold. -/
theorem mem_bucketVariants_fold (rows : List PartnerAggRow) (k v : String) :
    v ∈ bucketVariants (foldPartnerBuckets rows) k
      ↔ ∃ r ∈ rows, normalizePartnerName r.partner_name = some v
          ∧ rowHasKey r k := by
  rw [foldPartnerBuckets, mem_bucketVariants_foldAux]
  simp [bucketVariants, findBucket]

/-- `rowHasKey` in terms of the row's normalized name. -/
theorem rowHasKey_eq (r : PartnerAggRow) (v k : String)
    (h : normalizePartnerName r.partner_name = some v) :
    rowHasKey r k
      = (!(canonicalizePartnerKey v).isEmpty
          && decide (canonicalizePartnerKey v = k)) := by
  simp [rowHasKey, h]

/-- Upper-case variant row used in the C2 analysis. -/
def c2RowUpper : PartnerAggRow :=
  { partner_name := some "ABC"
    total_quantity := .num (.fin 1)
    total_sales := .num (.fin 1) }

/-- Lower-case variant row used in the C2 analysis. -/
def c2RowLower : PartnerAggRow :=
  { partner_name := some "abc"
    total_quantity := .num (.fin 1)
    total_sales := .num (.fin 1) }

/-- C2: two equal-length variants differing only in case share one
canonical key, yet folding them in the two possible orders yields
different display names (the accent-insensitive comparison rates them
equal, so the incumbent always survives); bucket merge state is therefore
not independent of fold order as the claim demands. -/
theorem c2_counterexample :
    canonicalizePartnerKey "ABC" = canonicalizePartnerKey "abc"
    ∧ (foldPartnerBuckets [c2RowUpper, c2RowLower]).map (fun p => p.2.displayName)
        = ["ABC"]
    ∧ (foldPartnerBuckets [c2RowLower, c2RowUpper]).map (fun p => p.2.displayName)
        = ["abc"]
    ∧ "ABC" ≠ "abc" := by
  exact ⟨by decide, by decide, by decide, by decide⟩

/-- C2 (amended): bucketing is governed by the canonical key — a variant
appears in the bucket of its (nonempty) canonical key and nowhere else,
and two variants occurring in the data share a bucket iff their canonical
keys are equal; a bucket's quantity and sales totals equal the sums over
the raw rows carrying its key, so totals, bucket keys and variant sets are
identical for any fold order; the display name, however, may depend on the
order (see the counterexample) and is excluded. -/
theorem c2_amended (rows rows' : List PartnerAggRow) (h : rows.Perm rows')
    (k v w : String)
    (hv : ∃ r ∈ rows, normalizePartnerName r.partner_name = some v)
    (hw : ∃ r ∈ rows, normalizePartnerName r.partner_name = some w)
    (hcv : canonicalizePartnerKey v ≠ "")
    (hcw : canonicalizePartnerKey w ≠ "") :
    bucketTotalQuantity (foldPartnerBuckets rows) k
      = ((rows.filter (fun r => rowHasKey r k)).map
          (fun r => toFiniteNumber r.total_quantity 0)).sum
    ∧ bucketTotalSalesValue (foldPartnerBuckets rows) k
      = ((rows.filter (fun r => rowHasKey r k)).map
          (fun r => toFiniteNumber r.total_sales 0)).sum
    ∧ bucketTotalQuantity (foldPartnerBuckets rows) k
      = bucketTotalQuantity (foldPartnerBuckets rows') k
    ∧ bucketTotalSalesValue (foldPartnerBuckets rows) k
      = bucketTotalSalesValue (foldPartnerBuckets rows') k
    ∧ (v ∈ bucketVariants (foldPartnerBuckets rows) k
        ↔ v ∈ bucketVariants (foldPartnerBuckets rows') k)
    ∧ ((∃ u, v ∈ bucketVariants (foldPartnerBuckets rows) u
          ∧ w ∈ bucketVariants (foldPartnerBuckets rows) u)
        ↔ canonicalizePartnerKey v = canonicalizePartnerKey w) := by
  refine ⟨bucketTotalQuantity_fold rows k, bucketTotalSalesValue_fold rows k,
    ?_, ?_, ?_, ?_⟩
  · rw [bucketTotalQuantity_fold, bucketTotalQuantity_fold]
    exact List.Perm.sum_eq ((h.filter _).map _)
  · rw [bucketTotalSalesValue_fold, bucketTotalSalesValue_fold]
    exact List.Perm.sum_eq ((h.filter _).map _)
  · rw [mem_bucketVariants_fold, mem_bucketVariants_fold]
    constructor
    · rintro ⟨r, hr, hx⟩
      exact ⟨r, h.mem_iff.1 hr, hx⟩
    · rintro ⟨r, hr, hx⟩
      exact ⟨r, h.mem_iff.2 hr, hx⟩
  · constructor
    · rintro ⟨u, hvu, hwu⟩
      obtain ⟨r, -, hnm, hk1⟩ := (mem_bucketVariants_fold rows u v).1 hvu
      obtain ⟨r', -, hnm', hk2⟩ := (mem_bucketVariants_fold rows u w).1 hwu
      rw [rowHasKey_eq r v u hnm] at hk1
      rw [rowHasKey_eq r' w u hnm'] at hk2
      have e1 : canonicalizePartnerKey v = u := by
        simp only [Bool.and_eq_true, decide_eq_true_eq] at hk1
        exact hk1.2
      have e2 : canonicalizePartnerKey w = u := by
        simp only [Bool.and_eq_true, decide_eq_true_eq] at hk2
        exact hk2.2
      rw [e1, e2]
    · intro he
      refine ⟨canonicalizePartnerKey v, ?_, ?_⟩
      · obtain ⟨r, hr, hnm⟩ := hv
        refine (mem_bucketVariants_fold rows _ v).2 ⟨r, hr, hnm, ?_⟩
        rw [rowHasKey_eq r v _ hnm]
        simp [Bool.eq_false_iff, String.isEmpty_iff, hcv]
      · obtain ⟨r, hr, hnm⟩ := hw
        refine (mem_bucketVariants_fold rows _ w).2 ⟨r, hr, hnm, ?_⟩
        rw [rowHasKey_eq r w _ hnm]
        simp [Bool.eq_false_iff, String.isEmpty_iff, hcw, he]

/-- Witness for the amended C2 theorem on the two case-variant rows. -/
theorem c2_amended_witness :
    bucketTotalQuantity (foldPartnerBuckets [c2RowUpper, c2RowLower]) "abc"
      = bucketTotalQuantity (foldPartnerBuckets [c2RowLower, c2RowUpper]) "abc"
    ∧ ((∃ u, "ABC" ∈ bucketVariants (foldPartnerBuckets [c2RowUpper, c2RowLower]) u
          ∧ "abc" ∈ bucketVariants (foldPartnerBuckets [c2RowUpper, c2RowLower]) u)
        ↔ canonicalizePartnerKey "ABC" = canonicalizePartnerKey "abc") := by
  have h := c2_amended [c2RowUpper, c2RowLower] [c2RowLower, c2RowUpper]
    (List.Perm.swap c2RowLower c2RowUpper []) "abc" "ABC" "abc"
    ⟨c2RowUpper, List.mem_cons_self _ _, by decide⟩
    ⟨c2RowLower, List.mem_cons_of_mem _ (List.mem_cons_self _ _), by decide⟩
    (by decide) (by decide)
  exact ⟨h.2.2.1, h.2.2.2.2.2⟩

/-- Gregorian leap-year rule, as implemented by the JS `Date` rollover. -/
def isLeapYear (y : ℕ) : Bool :=
  (y % 4 == 0 && y % 100 != 0) || y % 400 == 0

/-- Days in month `m` (0-based as in JS, January = 0) of year `y`. -/
def daysInMonth (y m : ℕ) : ℕ :=
  match m with
  | 0 => 31
  | 1 => if isLeapYear y then 29 else 28
  | 2 => 31
  | 3 => 30
  | 4 => 31
  | 5 => 30
  | 6 => 31
  | 7 => 31
  | 8 => 30
  | 9 => 31
  | 10 => 30
  | _ => 31

/-- Days of year `y` strictly before month `m`. -/
def daysBeforeMonth (y : ℕ) : ℕ → ℕ
  | 0 => 0
  | m + 1 => daysBeforeMonth y m + daysInMonth y m

/-- Days in year `y`. -/
def daysInYear (y : ℕ) : ℕ := daysBeforeMonth y 12

/-- Days strictly before year `y`, counting from year 0 of the proleptic
Gregorian calendar; the closed form counts the leap years in `[0, y)`. -/
def daysBeforeYear (y : ℕ) : ℕ :=
  365 * y + (y + 3) / 4 - (y + 99) / 100 + (y + 399) / 400

/-- A year has 366 days exactly when it is a leap year. -/
theorem daysInYear_eq (y : ℕ) :
    daysInYear y = if isLeapYear y then 366 else 365 := by
  show daysBeforeMonth y 12 = _
  simp only [daysBeforeMonth, daysInMonth]
  split <;> omega

set_option maxHeartbeats 1000000 in
/-- The closed form satisfies the year-by-year recurrence. -/
theorem daysBeforeYear_succ (y : ℕ) :
    daysBeforeYear (y + 1) = daysBeforeYear y + daysInYear y := by
  rw [daysInYear_eq]
  have hl : isLeapYear y = true ↔ (y % 4 = 0 ∧ y % 100 ≠ 0) ∨ y % 400 = 0 := by
    unfold isLeapYear
    simp [Bool.or_eq_true, Bool.and_eq_true, beq_iff_eq, bne_iff_ne]
  by_cases hly : isLeapYear y = true
  · rw [if_pos hly]
    have hc := hl.1 hly
    unfold daysBeforeYear
    omega
  · rw [if_neg hly]
    have hc := (not_iff_not.2 hl).1 hly
    push_neg at hc
    unfold daysBeforeYear
    omega

/-- Every month has at least one day. -/
theorem daysInMonth_pos (y m : ℕ) : 1 ≤ daysInMonth y m := by
  unfold daysInMonth
  split <;> first | omega | (split <;> omega)

/-- A calendar date in the single local timezone the routes run in:
0-based month as in JS, 1-based day, with validity built in.  Years before
year 0 are outside the model (the data's delivery dates are modern). -/
structure Ymd where
  year : ℕ
  month : ℕ
  day : ℕ
  month_lt : month < 12
  day_ge : 1 ≤ day
  day_le : day ≤ daysInMonth year month

/-- Days since 0000-01-01. -/
def dayNumber (d : Ymd) : ℕ :=
  daysBeforeYear d.year + daysBeforeMonth d.year d.month + (d.day - 1)

/-- Two dates with the same fields are equal. -/
theorem Ymd.ext' (a b : Ymd) (h1 : a.year = b.year) (h2 : a.month = b.month)
    (h3 : a.day = b.day) : a = b := by
  cases a
  cases b
  simp only at h1 h2 h3
  subst h1
  subst h2
  subst h3
  rfl

/-- The calendar successor of a date (the effect of JS
`setDate(getDate() + 1)`). -/
def nextDay (d : Ymd) : Ymd :=
  if h : d.day < daysInMonth d.year d.month then
    { year := d.year, month := d.month, day := d.day + 1
      month_lt := d.month_lt, day_ge := by omega, day_le := h }
  else if h2 : d.month + 1 < 12 then
    { year := d.year, month := d.month + 1, day := 1
      month_lt := h2, day_ge := le_refl 1, day_le := daysInMonth_pos _ _ }
  else
    { year := d.year + 1, month := 0, day := 1
      month_lt := by omega, day_ge := le_refl 1, day_le := daysInMonth_pos _ _ }

/-- `nextDay` advances the day number by one. -/
theorem dayNumber_nextDay (d : Ymd) : dayNumber (nextDay d) = dayNumber d + 1 := by
  unfold nextDay dayNumber
  have hge := d.day_ge
  have hle := d.day_le
  have hml := d.month_lt
  split
  · simp only
    omega
  · split
    · rename_i hday hm
      simp only
      have hsucc : daysBeforeMonth d.year (d.month + 1)
          = daysBeforeMonth d.year d.month + daysInMonth d.year d.month := rfl
      omega
    · rename_i hday hm
      simp only
      have hmeq : d.month = 11 := by omega
      have hy : daysBeforeYear (d.year + 1)
          = daysBeforeYear d.year + daysInYear d.year := daysBeforeYear_succ _
      have hiy : daysInYear d.year
          = daysBeforeMonth d.year 11 + daysInMonth d.year 11 := rfl
      have hb0 : daysBeforeMonth (d.year + 1) 0 = 0 := rfl
      rw [hmeq] at hday hle ⊢
      omega

/-- `daysBeforeMonth` is monotone in the month. -/
theorem daysBeforeMonth_mono (y : ℕ) {a b : ℕ} (h : a ≤ b) :
    daysBeforeMonth y a ≤ daysBeforeMonth y b := by
  induction b with
  | zero =>
    have ha : a = 0 := by omega
    rw [ha]
  | succ b ih =>
    rcases Nat.lt_or_ge a (b + 1) with hb | hb
    · have hs : daysBeforeMonth y (b + 1)
          = daysBeforeMonth y b + daysInMonth y b := rfl
      have hih := ih (by omega)
      omega
    · have ha : a = b + 1 := by omega
      rw [ha]

/-- Every day number of a date in year `y` is below the first day of year
`y + 1`. -/
theorem dayNumber_lt_year_succ (d : Ymd) :
    dayNumber d < daysBeforeYear (d.year + 1) := by
  have hle := d.day_le
  have hge := d.day_ge
  have hml := d.month_lt
  have hy : daysBeforeYear (d.year + 1)
      = daysBeforeYear d.year + daysInYear d.year := daysBeforeYear_succ _
  have hsucc : daysBeforeMonth d.year (d.month + 1)
      = daysBeforeMonth d.year d.month + daysInMonth d.year d.month := rfl
  have hmono : daysBeforeMonth d.year (d.month + 1) ≤ daysBeforeMonth d.year 12 :=
    daysBeforeMonth_mono d.year d.month_lt
  have hiy : daysInYear d.year = daysBeforeMonth d.year 12 := rfl
  unfold dayNumber
  omega

/-- `daysBeforeYear` is monotone. -/
theorem daysBeforeYear_mono {a b : ℕ} (h : a ≤ b) :
    daysBeforeYear a ≤ daysBeforeYear b := by
  induction b with
  | zero =>
    have ha : a = 0 := by omega
    rw [ha]
  | succ b ih =>
    rcases Nat.lt_or_ge a (b + 1) with hb | hb
    · have hs : daysBeforeYear (b + 1) = daysBeforeYear b + daysInYear b :=
        daysBeforeYear_succ _
      have hih := ih (by omega)
      omega
    · have ha : a = b + 1 := by omega
      rw [ha]

/-- The day number is at least the first day of the date's year. -/
theorem daysBeforeYear_le_dayNumber (d : Ymd) :
    daysBeforeYear d.year ≤ dayNumber d := by
  unfold dayNumber
  omega

/-- Strict monotonicity of the day number in the lexicographic date
order. -/
theorem dayNumber_lt_of_lt (a b : Ymd)
    (h : a.year < b.year
        ∨ (a.year = b.year ∧ (a.month < b.month
            ∨ (a.month = b.month ∧ a.day < b.day)))) :
    dayNumber a < dayNumber b := by
  rcases h with hy | ⟨hy, hm | ⟨hm, hd⟩⟩
  · have h1 := dayNumber_lt_year_succ a
    have h2 : daysBeforeYear (a.year + 1) ≤ daysBeforeYear b.year :=
      daysBeforeYear_mono (by omega)
    have h3 := daysBeforeYear_le_dayNumber b
    omega
  · have hle := a.day_le
    have hge := a.day_ge
    have hsucc : daysBeforeMonth a.year (a.month + 1)
        = daysBeforeMonth a.year a.month + daysInMonth a.year a.month := rfl
    have hmono : daysBeforeMonth a.year (a.month + 1)
        ≤ daysBeforeMonth a.year b.month := daysBeforeMonth_mono a.year (by omega)
    have hgeb := b.day_ge
    unfold dayNumber
    rw [← hy]
    omega
  · have hge := a.day_ge
    unfold dayNumber
    rw [← hy, ← hm]
    omega

/-- The day number determines the date. -/
theorem dayNumber_injective (a b : Ymd) (h : dayNumber a = dayNumber b) :
    a = b := by
  rcases Nat.lt_trichotomy a.year b.year with hy | hy | hy
  · exact absurd h (Nat.ne_of_lt (dayNumber_lt_of_lt a b (Or.inl hy)))
  · rcases Nat.lt_trichotomy a.month b.month with hm | hm | hm
    · exact absurd h
        (Nat.ne_of_lt (dayNumber_lt_of_lt a b (Or.inr ⟨hy, Or.inl hm⟩)))
    · rcases Nat.lt_trichotomy a.day b.day with hd | hd | hd
      · exact absurd h
          (Nat.ne_of_lt (dayNumber_lt_of_lt a b (Or.inr ⟨hy, Or.inr ⟨hm, hd⟩⟩)))
      · exact Ymd.ext' a b hy hm hd
      · exact absurd h.symm
          (Nat.ne_of_lt (dayNumber_lt_of_lt b a (Or.inr ⟨hy.symm, Or.inr ⟨hm.symm, hd⟩⟩)))
    · exact absurd h.symm
        (Nat.ne_of_lt (dayNumber_lt_of_lt b a (Or.inr ⟨hy.symm, Or.inl hm⟩)))
  · exact absurd h.symm (Nat.ne_of_lt (dayNumber_lt_of_lt b a (Or.inl hy)))

/-- The calendar predecessor of a date (the effect of JS
`setDate(getDate() - 1)`); clamped at 0000-01-01, which no claim
reaches. -/
def prevDay (d : Ymd) : Ymd :=
  if h : 1 < d.day then
    { year := d.year, month := d.month, day := d.day - 1
      month_lt := d.month_lt, day_ge := by omega
      day_le := by have := d.day_le; omega }
  else if h2 : 0 < d.month then
    { year := d.year, month := d.month - 1
      day := daysInMonth d.year (d.month - 1)
      month_lt := by have := d.month_lt; omega
      day_ge := daysInMonth_pos _ _, day_le := le_refl _ }
  else if h3 : 0 < d.year then
    { year := d.year - 1, month := 11, day := 31
      month_lt := by omega, day_ge := by omega
      day_le := le_refl _ }
  else d

/-- `prevDay` steps the day number back by one (away from the clamp). -/
theorem dayNumber_prevDay (d : Ymd) (h : 1 ≤ dayNumber d) :
    dayNumber (prevDay d) = dayNumber d - 1 := by
  unfold prevDay
  unfold dayNumber at h ⊢
  have hge := d.day_ge
  have hle := d.day_le
  have hml := d.month_lt
  split
  · simp only
    omega
  · split
    · rename_i hd hm
      simp only
      have hsucc : daysBeforeMonth d.year (d.month - 1 + 1)
          = daysBeforeMonth d.year (d.month - 1)
            + daysInMonth d.year (d.month - 1) := rfl
      have hmeq : d.month - 1 + 1 = d.month := by omega
      rw [hmeq] at hsucc
      have hpos := daysInMonth_pos d.year (d.month - 1)
      omega
    · split
      · rename_i hd hm hy
        simp only
        have hd1 : d.day = 1 := by omega
        have hm0 : d.month = 0 := by omega
        have hy1 : daysBeforeYear (d.year - 1 + 1)
            = daysBeforeYear (d.year - 1) + daysInYear (d.year - 1) :=
          daysBeforeYear_succ _
        have hyeq : d.year - 1 + 1 = d.year := by omega
        rw [hyeq] at hy1
        have hiy : daysInYear (d.year - 1)
            = daysBeforeMonth (d.year - 1) 11 + daysInMonth (d.year - 1) 11 := rfl
        have h31 : daysInMonth (d.year - 1) 11 = 31 := rfl
        have hb0 : daysBeforeMonth d.year 0 = 0 := rfl
        rw [hm0, hd1] at h ⊢
        rw [hb0] at h ⊢
        omega
      · rename_i hd hm hy
        have hd1 : d.day = 1 := by omega
        have hm0 : d.month = 0 := by omega
        have hy0 : d.year = 0 := by omega
        have hb0 : daysBeforeMonth d.year 0 = 0 := rfl
        have hz : daysBeforeYear 0 = 0 := rfl
        have hb00 : daysBeforeMonth 0 0 = 0 := rfl
        rw [hd1, hm0, hy0] at h
        rw [hz, hb00] at h
        omega

/-- Iterated predecessor (JS `setDate(getDate() + offset)` for a negative
offset). -/
def subDays (d : Ymd) : ℕ → Ymd
  | 0 => d
  | n + 1 => prevDay (subDays d n)

/-- Iterated successor (JS `setDate(getDate() + n)`). -/
def addDays (d : Ymd) : ℕ → Ymd
  | 0 => d
  | n + 1 => addDays (nextDay d) n

/-- Day number after `subDays`. -/
theorem dayNumber_subDays (d : Ymd) (n : ℕ) (h : n ≤ dayNumber d) :
    dayNumber (subDays d n) = dayNumber d - n := by
  induction n with
  | zero => simp [subDays]
  | succ n ih =>
    have hn : dayNumber (subDays d n) = dayNumber d - n := ih (by omega)
    show dayNumber (prevDay (subDays d n)) = dayNumber d - (n + 1)
    rw [dayNumber_prevDay _ (by omega), hn]
    omega

/-- Day number after `addDays`. -/
theorem dayNumber_addDays (d : Ymd) (n : ℕ) :
    dayNumber (addDays d n) = dayNumber d + n := by
  induction n generalizing d with
  | zero => simp [addDays]
  | succ n ih =>
    show dayNumber (addDays (nextDay d) n) = dayNumber d + (n + 1)
    rw [ih, dayNumber_nextDay]
    omega

/-- JS `Date.prototype.getDay`: 0 = Sunday … 6 = Saturday.  The anchor 6
makes 0001-01-01 a Monday, matching the proleptic Gregorian calendar. -/
def jsGetDay (d : Ymd) : ℕ := (dayNumber d + 6) % 7

/-- The `mondayOffset` computation of `weekStartKey`: how many days to go
back to reach Monday (`wd == 0 ? -6 : 1 - wd`, negated). -/
def mondayOffset (wd : ℕ) : ℕ := if wd = 0 then 6 else wd - 1

/-- The date computed inside `weekStartKey`: the Monday on or before the
input (time of day zeroed by `setHours(0,0,0,0)`, which a date-only value
already reflects). -/
def weekStartDate (d : Ymd) : Ymd := subDays d (mondayOffset (jsGetDay d))

/-- ASCII digit for a single decimal digit. -/
def decDigitChar (n : ℕ) : Char := Char.ofNat (48 + n)

/-- Fuel-driven decimal conversion (the fuel is an upper bound on the
number of digits, making the recursion structural). -/
def toDecimalAux : ℕ → ℕ → List Char
  | 0, _ => []
  | fuel + 1, n =>
    if n < 10 then [decDigitChar n]
    else toDecimalAux fuel (n / 10) ++ [decDigitChar (n % 10)]

/-- Decimal string of a natural number, as produced by JS template
interpolation of an integer. -/
def toDecimalString (n : ℕ) : String := ⟨toDecimalAux (n + 1) n⟩

/-- `String(n).padStart(2, "0")` for the 1-or-2-digit numbers used in
period keys. -/
def padTwo (n : ℕ) : String :=
  if n < 10 then "0" ++ toDecimalString n else toDecimalString n

/-- `monthKey` of the net-margin route, on a year and a 0-based month. -/
def monthKeyYM (y m : ℕ) : String :=
  toDecimalString y ++ "-" ++ padTwo (m + 1)

/-- `monthKey(d)` of the net-margin route. -/
def monthKey (d : Ymd) : String := monthKeyYM d.year d.month

/-- `dateKey(d)` of the net-margin route. -/
def dateKey (d : Ymd) : String :=
  toDecimalString d.year ++ "-" ++ padTwo (d.month + 1) ++ "-" ++ padTwo d.day

/-- `weekStartKey(d)` of the net-margin route. -/
def weekStartKey (d : Ymd) : String := dateKey (weekStartDate d)

/-- 2024-03-15, the Friday of the claim's example. -/
def c7Mar15 : Ymd := ⟨2024, 2, 15, by omega, by omega, by decide⟩

/-- Shared facts about `weekStartDate`: it is a Monday at most six days
before the input, and a Sunday input goes back exactly six days. -/
theorem weekStartDate_facts (d : Ymd) (h : 6 ≤ dayNumber d) :
    jsGetDay (weekStartDate d) = 1
    ∧ dayNumber (weekStartDate d) ≤ dayNumber d
    ∧ dayNumber d - dayNumber (weekStartDate d) ≤ 6
    ∧ (jsGetDay d = 0 → dayNumber (weekStartDate d) = dayNumber d - 6) := by
  have hoff : mondayOffset (jsGetDay d) ≤ 6 := by
    unfold mondayOffset jsGetDay
    split
    · omega
    · omega
  have hws : dayNumber (weekStartDate d)
      = dayNumber d - mondayOffset (jsGetDay d) := by
    unfold weekStartDate
    exact dayNumber_subDays d _ (by omega)
  refine ⟨?_, by omega, by omega, ?_⟩
  · rw [jsGetDay, hws]
    unfold mondayOffset jsGetDay
    split <;> omega
  · intro h0
    rw [hws]
    unfold mondayOffset
    rw [if_pos h0]

/-- C7: `weekStartKey` computes the Monday on or before its input: the
result has weekday Monday, lies at most six days before the input,
a Sunday maps to the Monday six days prior, and
`weekStartKey(2024-03-15)` is `"2024-03-11"`. -/
theorem c7_weekStartKey (d : Ymd) (h : 6 ≤ dayNumber d) :
    jsGetDay (weekStartDate d) = 1
    ∧ dayNumber (weekStartDate d) ≤ dayNumber d
    ∧ dayNumber d - dayNumber (weekStartDate d) ≤ 6
    ∧ (jsGetDay d = 0 → dayNumber (weekStartDate d) = dayNumber d - 6)
    ∧ weekStartKey c7Mar15 = "2024-03-11" := by
  have hf := weekStartDate_facts d h
  exact ⟨hf.1, hf.2.1, hf.2.2.1, hf.2.2.2, by decide⟩

/-- Witness for C7 at 2024-03-15: the computed week start is 2024-03-11,
a Monday, four days before the input. -/
theorem c7_weekStartKey_witness :
    jsGetDay (weekStartDate c7Mar15) = 1
    ∧ dayNumber (weekStartDate c7Mar15) ≤ dayNumber c7Mar15
    ∧ dayNumber c7Mar15 - dayNumber (weekStartDate c7Mar15) ≤ 6
    ∧ weekStartKey c7Mar15 = "2024-03-11" := by
  have h := c7_weekStartKey c7Mar15 (by decide)
  exact ⟨h.1, h.2.1, h.2.2.1, h.2.2.2.2⟩

/-- An instant in the single local timezone of the model: a calendar date
and a time of day. -/
structure LocalDateTime where
  date : Ymd
  hour : ℕ
  minute : ℕ
  second : ℕ
  ms : ℕ

/-- Millisecond timestamp of an instant (times of day are assumed within
bounds, as `Date` components always are). -/
def instantVal (t : LocalDateTime) : ℕ :=
  dayNumber t.date * 86400000
    + ((t.hour * 60 + t.minute) * 60 + t.second) * 1000 + t.ms

/-- The date part of `subMonths`: JS
`new Date(y, m - months, 1, …)` followed by clamping `setDate(min(day,
lastDay))`.  The month index arithmetic is faithful while
`months ≤ 12·year + month` (JS would continue into negative years, which
are outside the model, as is the legacy two-digit-year rewriting of the
`Date` constructor). -/
def subMonthsDate (d : Ymd) (months : ℕ) : Ymd :=
  { year := (12 * d.year + d.month - months) / 12
    month := (12 * d.year + d.month - months) % 12
    day := min d.day
      (daysInMonth ((12 * d.year + d.month - months) / 12)
        ((12 * d.year + d.month - months) % 12))
    month_lt := by omega
    day_ge := by
      have h1 := d.day_ge
      have h2 := daysInMonth_pos ((12 * d.year + d.month - months) / 12)
        ((12 * d.year + d.month - months) % 12)
      omega
    day_le := min_le_right _ _ }

/-- `subMonths` from the net-margin route: calendar-aware month
subtraction with day-of-month clamping, copying the time of day. -/
def subMonths (t : LocalDateTime) (months : ℕ) : LocalDateTime :=
  { date := subMonthsDate t.date months
    hour := t.hour
    minute := t.minute
    second := t.second
    ms := t.ms }

/-- 2024-01-31 at 12:34:56.789. -/
def c8Jan31 : LocalDateTime :=
  { date := ⟨2024, 0, 31, by omega, by omega, by decide⟩
    hour := 12, minute := 34, second := 56, ms := 789 }

/-- C8: the claim's example "Jan 31 minus 1 month → Feb 28/29" is wrong:
one month before January 31 is December 31 of the previous year (month
index 11), with no clamping, not a February date. -/
theorem c8_counterexample :
    (subMonths c8Jan31 1).date.year = 2023
    ∧ (subMonths c8Jan31 1).date.month = 11
    ∧ (subMonths c8Jan31 1).date.day = 31
    ∧ (11 : ℕ) ≠ 1 := by
  exact ⟨by decide, by decide, by decide, by decide⟩

/-- C8 (amended): `subMonths(date, n)` performs calendar-aware month
subtraction — the target month index is the source index minus `n` — and
clamps the day-of-month to the last day of the (possibly shorter) target
month (e.g. Mar 31 minus 1 month → Feb 28/29), while preserving the
time of day. -/
theorem c8_amended (t : LocalDateTime) (n : ℕ)
    (h : n ≤ 12 * t.date.year + t.date.month) :
    12 * (subMonths t n).date.year + (subMonths t n).date.month
      = 12 * t.date.year + t.date.month - n
    ∧ (subMonths t n).date.day
      = min t.date.day
          (daysInMonth (subMonths t n).date.year (subMonths t n).date.month)
    ∧ (subMonths t n).hour = t.hour
    ∧ (subMonths t n).minute = t.minute
    ∧ (subMonths t n).second = t.second
    ∧ (subMonths t n).ms = t.ms := by
  refine ⟨?_, rfl, rfl, rfl, rfl, rfl⟩
  show 12 * ((12 * t.date.year + t.date.month - n) / 12)
      + (12 * t.date.year + t.date.month - n) % 12
    = 12 * t.date.year + t.date.month - n
  omega

/-- 2024-03-31 at 23:59:59.999. -/
def c8Mar31 : LocalDateTime :=
  { date := ⟨2024, 2, 31, by omega, by omega, by decide⟩
    hour := 23, minute := 59, second := 59, ms := 999 }

/-- Witness for the amended C8 theorem: March 31, 2024 minus one month is
February 29, 2024 (leap-year clamp), same time of day. -/
theorem c8_amended_witness :
    12 * (subMonths c8Mar31 1).date.year + (subMonths c8Mar31 1).date.month
      = 12 * c8Mar31.date.year + c8Mar31.date.month - 1
    ∧ (subMonths c8Mar31 1).date.day = 29
    ∧ (subMonths c8Mar31 1).date.month = 1
    ∧ (subMonths c8Mar31 1).hour = c8Mar31.hour := by
  have h := c8_amended c8Mar31 1 (by decide)
  exact ⟨h.1, by decide, by decide, h.2.2.1⟩

/-- Parse a digit list back to its value. -/
def digitsVal (l : List Char) : ℕ :=
  l.foldl (fun a c => a * 10 + (c.toNat - 48)) 0

/-- Code point of a decimal digit character. -/
theorem decDigitChar_toNat (n : ℕ) (h : n < 10) :
    (decDigitChar n).toNat = 48 + n := by
  interval_cases n <;> decide

/-- `digitsVal` over a trailing digit. -/
theorem digitsVal_append_singleton (l : List Char) (c : Char) :
    digitsVal (l ++ [c]) = digitsVal l * 10 + (c.toNat - 48) := by
  simp [digitsVal, List.foldl_append]

/-- `toDecimalAux` round-trips through `digitsVal` when the fuel bounds
the number of digits. -/
theorem digitsVal_toDecimalAux (fuel : ℕ) :
    ∀ n, n < 10 ^ fuel → digitsVal (toDecimalAux fuel n) = n := by
  induction fuel with
  | zero =>
    intro n h
    have hn : n = 0 := by simpa using h
    simp [toDecimalAux, digitsVal, hn]
  | succ fuel ih =>
    intro n h
    by_cases hn : n < 10
    · simp [toDecimalAux, hn, digitsVal, decDigitChar_toNat n hn]
    · have h1 : n / 10 < 10 ^ fuel := by
        rw [Nat.div_lt_iff_lt_mul (by omega)]
        calc n < 10 ^ (fuel + 1) := h
        _ = 10 ^ fuel * 10 := by rw [pow_succ]
      rw [toDecimalAux, if_neg hn, digitsVal_append_singleton, ih _ h1,
        decDigitChar_toNat _ (Nat.mod_lt _ (by omega))]
      omega

/-- `digitsVal` round-trips `toDecimalString`. -/
theorem digitsVal_toDecimalString (n : ℕ) :
    digitsVal (toDecimalString n).data = n := by
  have h : n < 10 ^ (n + 1) := by
    calc n < n + 1 := by omega
    _ ≤ 10 ^ (n + 1) := Nat.le_of_lt (Nat.lt_pow_self (by omega) _)
  exact digitsVal_toDecimalAux (n + 1) n h

/-- Decimal rendering is injective. -/
theorem toDecimalString_inj {a b : ℕ} (h : toDecimalString a = toDecimalString b) :
    a = b := by
  have hd : (toDecimalString a).data = (toDecimalString b).data := by rw [h]
  calc a = digitsVal (toDecimalString a).data := (digitsVal_toDecimalString a).symm
  _ = digitsVal (toDecimalString b).data := by rw [hd]
  _ = b := digitsVal_toDecimalString b

/-- One-digit numbers render as one digit character. -/
theorem toDecimalAux_small (f n : ℕ) (h : n < 10) :
    toDecimalAux (f + 1) n = [decDigitChar n] := by
  simp [toDecimalAux, h]

/-- Two-digit numbers render as two digit characters. -/
theorem toDecimalString_two_digits (n : ℕ) (h1 : 10 ≤ n) (h2 : n < 100) :
    (toDecimalString n).data
      = [decDigitChar (n / 10), decDigitChar (n % 10)] := by
  unfold toDecimalString
  show toDecimalAux (n + 1) n = _
  have hfuel : ∃ f, n + 1 = f + 2 := ⟨n - 1, by omega⟩
  obtain ⟨f, hf⟩ := hfuel
  rw [hf, toDecimalAux, if_neg (by omega), toDecimalAux_small f _ (by omega)]
  rfl

/-- The rendered data of `padTwo` below 100 is exactly two characters. -/
theorem padTwo_data (n : ℕ) (h : n < 100) :
    (padTwo n).data = [decDigitChar (n / 10), decDigitChar (n % 10)] := by
  unfold padTwo
  by_cases hn : n < 10
  · rw [if_pos hn]
    show ('0' :: (toDecimalString n).data) = _
    unfold toDecimalString
    rw [toDecimalAux_small n n hn]
    have h10 : n / 10 = 0 := by omega
    have hmod : n % 10 = n := by omega
    rw [h10, hmod]
    rfl
  · rw [if_neg hn]
    exact toDecimalString_two_digits n (by omega) h

/-- `padTwo` is injective below 100. -/
theorem padTwo_inj {a b : ℕ} (ha : a < 100) (hb : b < 100)
    (h : padTwo a = padTwo b) : a = b := by
  have hd : (padTwo a).data = (padTwo b).data := by rw [h]
  rw [padTwo_data a ha, padTwo_data b hb] at hd
  have h1 : (decDigitChar (a / 10)).toNat = (decDigitChar (b / 10)).toNat := by
    rw [List.cons.injEq] at hd
    rw [hd.1]
  have h2 : (decDigitChar (a % 10)).toNat = (decDigitChar (b % 10)).toNat := by
    rw [List.cons.injEq, List.cons.injEq] at hd
    rw [hd.2.1]
  rw [decDigitChar_toNat _ (by omega), decDigitChar_toNat _ (by omega)] at h1
  rw [decDigitChar_toNat _ (by omega), decDigitChar_toNat _ (by omega)] at h2
  omega

/-- Splitting a month key into its year and month parts. -/
theorem monthKeyYM_inj {y1 m1 y2 m2 : ℕ} (hm1 : m1 < 12) (hm2 : m2 < 12)
    (h : monthKeyYM y1 m1 = monthKeyYM y2 m2) : y1 = y2 ∧ m1 = m2 := by
  have hd : (monthKeyYM y1 m1).data = (monthKeyYM y2 m2).data := by rw [h]
  unfold monthKeyYM at hd
  rw [String.data_append, String.data_append, String.data_append,
    String.data_append] at hd
  rw [List.append_assoc, List.append_assoc] at hd
  have hlen : ((("-").data) ++ (padTwo (m1 + 1)).data).length
      = ((("-").data) ++ (padTwo (m2 + 1)).data).length := by
    simp [padTwo_data _ (by omega : m1 + 1 < 100),
      padTwo_data _ (by omega : m2 + 1 < 100)]
  obtain ⟨hy, hrest⟩ := List.append_inj' hd hlen
  have hy' : y1 = y2 := toDecimalString_inj (by
    apply congrArg String.mk at hy
    simpa using hy)
  have hp : (padTwo (m1 + 1)).data = (padTwo (m2 + 1)).data := by
    simpa using hrest
  have hm : m1 + 1 = m2 + 1 := padTwo_inj (by omega) (by omega) (by
    apply congrArg String.mk at hp
    simpa using hp)
  exact ⟨hy', by omega⟩

/-- Every month length is at most 31. -/
theorem daysInMonth_le (y m : ℕ) : daysInMonth y m ≤ 31 := by
  unfold daysInMonth
  split <;> first | omega | (split <;> omega)

/-- Splitting a date key into its components. -/
theorem dateKey_inj {d1 d2 : Ymd} (h : dateKey d1 = dateKey d2) : d1 = d2 := by
  have hd : (dateKey d1).data = (dateKey d2).data := by rw [h]
  unfold dateKey at hd
  repeat rw [String.data_append] at hd
  rw [List.append_assoc, List.append_assoc, List.append_assoc,
    List.append_assoc, List.append_assoc, List.append_assoc] at hd
  have hm1 : d1.month + 1 < 100 := by have := d1.month_lt; omega
  have hm2 : d2.month + 1 < 100 := by have := d2.month_lt; omega
  have hd1 : d1.day < 100 := by
    have := d1.day_le
    have := daysInMonth_le d1.year d1.month
    omega
  have hd2 : d2.day < 100 := by
    have := d2.day_le
    have := daysInMonth_le d2.year d2.month
    omega
  have hlen : (("-").data ++ ((padTwo (d1.month + 1)).data
        ++ (("-").data ++ (padTwo d1.day).data))).length
      = (("-").data ++ ((padTwo (d2.month + 1)).data
        ++ (("-").data ++ (padTwo d2.day).data))).length := by
    simp [padTwo_data _ hm1, padTwo_data _ hm2, padTwo_data _ hd1,
      padTwo_data _ hd2]
  obtain ⟨hy, hrest⟩ := List.append_inj' hd hlen
  have hy' : d1.year = d2.year := toDecimalString_inj (by
    apply congrArg String.mk at hy
    simpa using hy)
  have hrest2 : (padTwo (d1.month + 1)).data ++ (("-").data ++ (padTwo d1.day).data)
      = (padTwo (d2.month + 1)).data ++ (("-").data ++ (padTwo d2.day).data) := by
    simpa using hrest
  have hlen2 : ((padTwo (d1.month + 1)).data).length
      = ((padTwo (d2.month + 1)).data).length := by
    simp [padTwo_data _ hm1, padTwo_data _ hm2]
  obtain ⟨hmon, hrest3⟩ := List.append_inj hrest2 hlen2
  have hm' : d1.month = d2.month := by
    have := padTwo_inj hm1 hm2 (by
      apply congrArg String.mk at hmon
      simpa using hmon)
    omega
  have hday' : d1.day = d2.day := padTwo_inj hd1 hd2 (by
    have hdd : (padTwo d1.day).data = (padTwo d2.day).data := by
      simpa using hrest3
    apply congrArg String.mk at hdd
    simpa using hdd)
  exact Ymd.ext' d1 d2 hy' hm' hday'

/-- Month indices visited by the `while (cur <= endMonth)` loop of
`generateMonthRangeInclusive`: the loop starts at the first of the start
instant's month and advances one month per iteration (`setMonth(+1)`), so
it visits exactly the month indices from the start's to the end's,
inclusive. -/
def generateMonthRangeIndices (s e : LocalDateTime) : List ℕ :=
  List.range' (12 * s.date.year + s.date.month)
    (12 * e.date.year + e.date.month + 1 - (12 * s.date.year + s.date.month))

/-- `generateMonthRangeInclusive` from the net-margin route. -/
def generateMonthRangeInclusive (s e : LocalDateTime) : List String :=
  (generateMonthRangeIndices s e).map (fun i => monthKeyYM (i / 12) (i % 12))

/-- The dates visited by a day-stepping loop of a given iteration count. -/
def dayRangeDates (d : Ymd) : ℕ → List Ymd
  | 0 => []
  | n + 1 => d :: dayRangeDates (nextDay d) n

/-- `generateDateRangeInclusive` from the net-margin route: the loop runs
from the start instant's midnight while `cur <= endDay`, one day per
iteration, hence `dayNumber end + 1 - dayNumber start` iterations. -/
def generateDateRangeInclusive (s e : LocalDateTime) : List String :=
  (dayRangeDates s.date (dayNumber e.date + 1 - dayNumber s.date)).map dateKey

/-- The dates visited by a 7-day-stepping loop of a given iteration
count. -/
def weekRangeDates (d : Ymd) : ℕ → List Ymd
  | 0 => []
  | n + 1 => d :: weekRangeDates (addDays d 7) n

/-- `generateWeekRangeInclusive` from the net-margin route: the loop runs
from the Monday on or before the start while `cur <= endMidnight`, seven
days per iteration. -/
def generateWeekRangeInclusive (s e : LocalDateTime) : List String :=
  (weekRangeDates (weekStartDate s.date)
    ((dayNumber e.date + 7 - dayNumber (weekStartDate s.date)) / 7)).map dateKey

/-- Day numbers of a day-stepping loop form a consecutive range. -/
theorem map_dayNumber_dayRangeDates (n : ℕ) :
    ∀ d : Ymd, (dayRangeDates d n).map dayNumber
      = List.range' (dayNumber d) n := by
  induction n with
  | zero => intro d; rfl
  | succ n ih =>
    intro d
    show dayNumber d :: (dayRangeDates (nextDay d) n).map dayNumber = _
    rw [ih, dayNumber_nextDay]
    rfl

/-- Day numbers of a week-stepping loop form a step-7 range. -/
theorem map_dayNumber_weekRangeDates (n : ℕ) :
    ∀ d : Ymd, (weekRangeDates d n).map dayNumber
      = List.range' (dayNumber d) n 7 := by
  induction n with
  | zero => intro d; rfl
  | succ n ih =>
    intro d
    show dayNumber d :: (weekRangeDates (addDays d 7) n).map dayNumber = _
    rw [ih, dayNumber_addDays]
    rfl

/-- 2024-03-20 at 18:00. -/
def c4Start : LocalDateTime :=
  { date := ⟨2024, 2, 20, by omega, by omega, by decide⟩
    hour := 18, minute := 0, second := 0, ms := 0 }

/-- 2024-03-20 at 06:00, twelve hours before `c4Start`. -/
def c4End : LocalDateTime :=
  { date := ⟨2024, 2, 20, by omega, by omega, by decide⟩
    hour := 6, minute := 0, second := 0, ms := 0 }

/-- C4: with a start instant strictly after the end instant but in the
same period, every enumerator returns that period's single key instead of
the empty sequence the claim requires. -/
theorem c4_counterexample :
    instantVal c4End < instantVal c4Start
    ∧ generateMonthRangeInclusive c4Start c4End = ["2024-03"]
    ∧ generateDateRangeInclusive c4Start c4End = ["2024-03-20"]
    ∧ generateWeekRangeInclusive c4Start c4End = ["2024-03-18"]
    ∧ ["2024-03"] ≠ ([] : List String)
    ∧ ["2024-03-20"] ≠ ([] : List String)
    ∧ ["2024-03-18"] ≠ ([] : List String) := by
  refine ⟨by decide, by decide, by decide, by decide, by decide, by decide,
    by decide⟩

/-- Midnight of 2024-01-15 (the spec example's start). -/
def c4ExStart : LocalDateTime :=
  { date := ⟨2024, 0, 15, by omega, by omega, by decide⟩
    hour := 0, minute := 0, second := 0, ms := 0 }

/-- Midnight of 2024-04-15 (the spec example's end). -/
def c4ExEnd : LocalDateTime :=
  { date := ⟨2024, 3, 15, by omega, by omega, by decide⟩
    hour := 0, minute := 0, second := 0, ms := 0 }

/-- C4 (amended): every range enumerator returns the inclusive ordered
sequence of period keys from the start's period to the end's period: it
is empty exactly when the start's period strictly follows the end's
period (not merely when start > end as instants — equal periods with
start > end still yield that one period key); otherwise it contains both
the start and the end period key (the end period included even when the
end instant falls mid-period), the underlying periods are strictly
increasing, and the key list has no duplicates; the spec's example
`generateMonthRange(2024-01-15, 2024-04-15)` is confirmed. -/
theorem c4_amended (s e : LocalDateTime)
    (hs6 : 6 ≤ dayNumber s.date) (he6 : 6 ≤ dayNumber e.date) :
    (12 * e.date.year + e.date.month < 12 * s.date.year + s.date.month →
        generateMonthRangeInclusive s e = [])
    ∧ (12 * s.date.year + s.date.month ≤ 12 * e.date.year + e.date.month →
        monthKey s.date ∈ generateMonthRangeInclusive s e
        ∧ monthKey e.date ∈ generateMonthRangeInclusive s e)
    ∧ (generateMonthRangeIndices s e).Pairwise (· < ·)
    ∧ (generateMonthRangeInclusive s e).Nodup
    ∧ (dayNumber e.date < dayNumber s.date →
        generateDateRangeInclusive s e = [])
    ∧ (dayNumber s.date ≤ dayNumber e.date →
        dateKey s.date ∈ generateDateRangeInclusive s e
        ∧ dateKey e.date ∈ generateDateRangeInclusive s e)
    ∧ (dayRangeDates s.date (dayNumber e.date + 1 - dayNumber s.date)).Pairwise
        (fun x y => dayNumber x < dayNumber y)
    ∧ (generateDateRangeInclusive s e).Nodup
    ∧ (dayNumber (weekStartDate e.date) < dayNumber (weekStartDate s.date) →
        generateWeekRangeInclusive s e = [])
    ∧ (dayNumber (weekStartDate s.date) ≤ dayNumber (weekStartDate e.date) →
        weekStartKey s.date ∈ generateWeekRangeInclusive s e
        ∧ weekStartKey e.date ∈ generateWeekRangeInclusive s e)
    ∧ (weekRangeDates (weekStartDate s.date)
        ((dayNumber e.date + 7 - dayNumber (weekStartDate s.date)) / 7)).Pairwise
        (fun x y => dayNumber x < dayNumber y)
    ∧ (generateWeekRangeInclusive s e).Nodup
    ∧ generateMonthRangeInclusive c4ExStart c4ExEnd
        = ["2024-01", "2024-02", "2024-03", "2024-04"] := by
  have hfs := weekStartDate_facts s.date hs6
  have hfe := weekStartDate_facts e.date he6
  have hwsres : (dayNumber (weekStartDate s.date) + 6) % 7 = 1 := hfs.1
  have hweres : (dayNumber (weekStartDate e.date) + 6) % 7 = 1 := hfe.1
  have hle1 : dayNumber (weekStartDate e.date) ≤ dayNumber e.date := hfe.2.1
  have hle2 : dayNumber e.date - dayNumber (weekStartDate e.date) ≤ 6 :=
    hfe.2.2.1
  have hmls := s.date.month_lt
  have hmle := e.date.month_lt
  have hpairday : (dayRangeDates s.date
      (dayNumber e.date + 1 - dayNumber s.date)).Pairwise
        (fun x y => dayNumber x < dayNumber y) := by
    rw [← List.pairwise_map (f := dayNumber), map_dayNumber_dayRangeDates]
    exact List.pairwise_lt_range' _ _
  have hpairweek : (weekRangeDates (weekStartDate s.date)
      ((dayNumber e.date + 7 - dayNumber (weekStartDate s.date)) / 7)).Pairwise
        (fun x y => dayNumber x < dayNumber y) := by
    rw [← List.pairwise_map (f := dayNumber), map_dayNumber_weekRangeDates]
    exact List.pairwise_lt_range' _ _ 7 (by omega)
  refine ⟨?_, ?_, ?_, ?_, ?_, ?_, hpairday, ?_, ?_, ?_, hpairweek, ?_, by decide⟩
  · intro h
    unfold generateMonthRangeInclusive generateMonthRangeIndices
    rw [show 12 * e.date.year + e.date.month + 1
        - (12 * s.date.year + s.date.month) = 0 from by omega]
    rfl
  · intro h
    constructor
    · refine List.mem_map.2 ⟨12 * s.date.year + s.date.month, ?_, ?_⟩
      · exact List.mem_range'_1.2 ⟨le_refl _, by omega⟩
      · unfold monthKey monthKeyYM
        rw [show (12 * s.date.year + s.date.month) / 12 = s.date.year from by omega,
          show (12 * s.date.year + s.date.month) % 12 = s.date.month from by omega]
    · refine List.mem_map.2 ⟨12 * e.date.year + e.date.month, ?_, ?_⟩
      · exact List.mem_range'_1.2 ⟨by omega, by omega⟩
      · unfold monthKey monthKeyYM
        rw [show (12 * e.date.year + e.date.month) / 12 = e.date.year from by omega,
          show (12 * e.date.year + e.date.month) % 12 = e.date.month from by omega]
  · exact List.pairwise_lt_range' _ _
  · refine List.Nodup.map_on ?_ (List.nodup_range' _ _)
    intro i hi j hj hk
    have := monthKeyYM_inj (Nat.mod_lt _ (by omega)) (Nat.mod_lt _ (by omega)) hk
    omega
  · intro h
    unfold generateDateRangeInclusive
    rw [show dayNumber e.date + 1 - dayNumber s.date = 0 from by omega]
    rfl
  · intro h
    constructor
    · obtain ⟨k, hk⟩ : ∃ k, dayNumber e.date + 1 - dayNumber s.date = k + 1 :=
        ⟨dayNumber e.date - dayNumber s.date, by omega⟩
      unfold generateDateRangeInclusive
      rw [hk]
      exact List.mem_map_of_mem dateKey (List.mem_cons_self _ _)
    · have hmem : dayNumber e.date
          ∈ (dayRangeDates s.date (dayNumber e.date + 1 - dayNumber s.date)).map
            dayNumber := by
        rw [map_dayNumber_dayRangeDates]
        exact List.mem_range'_1.2 ⟨h, by omega⟩
      obtain ⟨x, hx, hdn⟩ := List.mem_map.1 hmem
      rw [dayNumber_injective x e.date hdn] at hx
      exact List.mem_map_of_mem dateKey hx
  · refine List.Nodup.map (fun a b hab => dateKey_inj hab) ?_
    exact hpairday.imp (fun hlt => by
      intro he
      subst he
      exact absurd hlt (lt_irrefl _))
  · intro h
    unfold generateWeekRangeInclusive
    rw [show (dayNumber e.date + 7 - dayNumber (weekStartDate s.date)) / 7 = 0
      from by omega]
    rfl
  · intro h
    constructor
    · obtain ⟨k, hk⟩ : ∃ k,
          (dayNumber e.date + 7 - dayNumber (weekStartDate s.date)) / 7 = k + 1 := by
        refine ⟨(dayNumber e.date + 7 - dayNumber (weekStartDate s.date)) / 7 - 1, ?_⟩
        omega
      unfold generateWeekRangeInclusive weekStartKey
      rw [hk]
      exact List.mem_map_of_mem dateKey (List.mem_cons_self _ _)
    · have hmem : dayNumber (weekStartDate e.date)
          ∈ (weekRangeDates (weekStartDate s.date)
            ((dayNumber e.date + 7 - dayNumber (weekStartDate s.date)) / 7)).map
              dayNumber := by
        rw [map_dayNumber_weekRangeDates]
        refine List.mem_range'.2
          ⟨(dayNumber (weekStartDate e.date)
            - dayNumber (weekStartDate s.date)) / 7, by omega, by omega⟩
      obtain ⟨x, hx, hdn⟩ := List.mem_map.1 hmem
      rw [dayNumber_injective x (weekStartDate e.date) hdn] at hx
      exact List.mem_map_of_mem dateKey hx
  · refine List.Nodup.map (fun a b hab => dateKey_inj hab) ?_
    exact hpairweek.imp (fun hlt => by
      intro he
      subst he
      exact absurd hlt (lt_irrefl _))

/-- Witness for the amended C4 theorem at the spec example's bounds
2024-01-15 and 2024-04-15. -/
theorem c4_amended_witness :
    generateMonthRangeInclusive c4ExStart c4ExEnd
      = ["2024-01", "2024-02", "2024-03", "2024-04"]
    ∧ monthKey c4ExStart.date ∈ generateMonthRangeInclusive c4ExStart c4ExEnd
    ∧ dateKey c4ExEnd.date ∈ generateDateRangeInclusive c4ExStart c4ExEnd
    ∧ (generateWeekRangeInclusive c4ExStart c4ExEnd).Nodup := by
  have h := c4_amended c4ExStart c4ExEnd (by decide) (by decide)
  exact ⟨h.2.2.2.2.2.2.2.2.2.2.2.2, (h.2.1 (by decide)).1,
    ((h.2.2.2.2.2.1) (by decide)).2, h.2.2.2.2.2.2.2.2.2.2.2.1⟩

/-- Fact-row columns consulted by the most-sold-products query. -/
structure ProductFactRow where
  product_category : Option String
  product_family : Option String
  product_reference : Option String
  quantity : Option ℚ
deriving DecidableEq, Repr

/-- The WHERE clause always present in `buildWhereClause`:
`product_category IS NOT NULL AND TRIM(product_category) <> ''`. -/
def validProductRow (r : ProductFactRow) : Bool :=
  match r.product_category with
  | some c => !(jsTrim c).isEmpty
  | none => false

/-- The `GROUP BY product_category, product_family, product_reference`
key; the category is non-null on rows passing the WHERE clause. -/
def productKey (r : ProductFactRow) : String × Option String × Option String :=
  (r.product_category.getD "", r.product_family, r.product_reference)

/-- The distinct grouping keys of the filtered rows ("distinct products",
one per `(category, family, reference)` combination). -/
def distinctKeys (rows : List ProductFactRow) :
    List (String × Option String × Option String) :=
  ((rows.filter validProductRow).map productKey).dedup

/-- One row of the `filtered` CTE. -/
structure ProductGroup where
  product_category : String
  product_family : Option String
  product_reference : Option String
  total_quantity : ℚ
deriving DecidableEq, Repr

/-- `SUM(COALESCE(quantity, 0))` over the rows of one group. -/
def groupQuantity (rows : List ProductFactRow)
    (k : String × Option String × Option String) : ℚ :=
  ((rows.filter (fun r => validProductRow r && decide (productKey r = k))).map
    (fun r => r.quantity.getD 0)).sum

/-- The `filtered` CTE: one summed group per distinct key. -/
def filteredGroups (rows : List ProductFactRow) : List ProductGroup :=
  (distinctKeys rows).map (fun k =>
    { product_category := k.1
      product_family := k.2.1
      product_reference := k.2.2
      total_quantity := groupQuantity rows k })

/-- SQLite `ORDER BY product_reference ASC` over a nullable column: NULLs
sort first, strings byte-wise (equal to code-point order for UTF-8). -/
def optionRefLe : Option String → Option String → Prop
  | none, _ => True
  | some _, none => False
  | some a, some b => a ≤ b

instance : DecidableRel optionRefLe := fun a b => by
  cases a <;> cases b <;> simp [optionRefLe] <;> infer_instance

/-- The window order `ORDER BY total_quantity DESC, product_reference
ASC` of the `ROW_NUMBER` ranking. -/
def prodRel (a b : ProductGroup) : Prop :=
  b.total_quantity < a.total_quantity
    ∨ (a.total_quantity = b.total_quantity
        ∧ optionRefLe a.product_reference b.product_reference)

instance : DecidableRel prodRel := fun a b => by
  unfold prodRel
  infer_instance

/-- `optionRefLe` is total. -/
theorem optionRefLe_total (a b : Option String) :
    optionRefLe a b ∨ optionRefLe b a := by
  match a, b with
  | none, _ => exact Or.inl trivial
  | some x, none => exact Or.inr trivial
  | some x, some y =>
    rcases le_total x y with h | h
    · exact Or.inl h
    · exact Or.inr h

/-- `optionRefLe` is transitive. -/
theorem optionRefLe_trans {a b c : Option String} (h1 : optionRefLe a b)
    (h2 : optionRefLe b c) : optionRefLe a c := by
  match a, b, c with
  | none, _, _ => trivial
  | some x, some y, some z => exact le_trans h1 h2
  | some x, some y, none => exact h2.elim
  | some x, none, _ => exact h1.elim

instance : IsTotal ProductGroup prodRel := by
  constructor
  intro a b
  rcases lt_trichotomy a.total_quantity b.total_quantity with h | h | h
  · exact Or.inr (Or.inl h)
  · rcases optionRefLe_total a.product_reference b.product_reference with hr | hr
    · exact Or.inl (Or.inr ⟨h, hr⟩)
    · exact Or.inr (Or.inr ⟨h.symm, hr⟩)
  · exact Or.inl (Or.inl h)

instance : IsTrans ProductGroup prodRel := by
  constructor
  intro a b c hab hbc
  rcases hab with h1 | ⟨h1, h1r⟩ <;> rcases hbc with h2 | ⟨h2, h2r⟩
  · exact Or.inl (lt_trans h2 h1)
  · exact Or.inl (h2 ▸ h1)
  · exact Or.inl (h1 ▸ h2)
  · exact Or.inr ⟨h1.trans h2, optionRefLe_trans h1r h2r⟩

/-- 1-based `ROW_NUMBER` assignment starting after position `i`. -/
def rankFrom (i : ℕ) : List ProductGroup → List (ℕ × ProductGroup)
  | [] => []
  | g :: gs => (i + 1, g) :: rankFrom (i + 1) gs

/-- The `ranked` CTE restricted to one partition: sort the partition by
the window order and number the rows from 1. -/
def rankedPartition (c : String) (groups : List ProductGroup) :
    List (ℕ × ProductGroup) :=
  rankFrom 0 (List.insertionSort prodRel
    (groups.filter (fun g => decide (g.product_category = c))))

/-- The categories present, each once (the partitions). -/
def categoriesOf (groups : List ProductGroup) : List String :=
  (groups.map (·.product_category)).dedup

/-- `SUM(total_quantity) OVER (PARTITION BY product_category)`. -/
def categoryTotal (groups : List ProductGroup) (c : String) : ℚ :=
  ((groups.filter (fun g => decide (g.product_category = c))).map
    (·.total_quantity)).sum

/-- One output row of `buildTopProductsQuery`. -/
structure RankedProductRow where
  product_category : String
  product_family : Option String
  product_reference : Option String
  total_quantity : ℚ
  category_total_quantity : ℚ
  rank : ℕ
deriving DecidableEq, Repr

/-- The final `ORDER BY total_quantity DESC, product_category ASC,
product_reference ASC`. -/
def finalRel (a b : RankedProductRow) : Prop :=
  b.total_quantity < a.total_quantity
    ∨ (a.total_quantity = b.total_quantity
        ∧ (a.product_category < b.product_category
            ∨ (a.product_category = b.product_category
                ∧ optionRefLe a.product_reference b.product_reference)))

instance : DecidableRel finalRel := fun a b => by
  unfold finalRel
  infer_instance

/-- The per-partition kept rows (`WHERE rn <= 5`) of one category,
assembled into output rows. -/
def keptRowsFor (groups : List ProductGroup) (c : String) :
    List RankedProductRow :=
  ((rankedPartition c groups).filter (fun p => p.1 ≤ 5)).map (fun p =>
    { product_category := c
      product_family := p.2.product_family
      product_reference := p.2.product_reference
      total_quantity := p.2.total_quantity
      category_total_quantity := categoryTotal groups c
      rank := p.1 })

/-- `buildTopProductsQuery`: group, rank per category partition, keep
ranks at most 5, and apply the final ORDER BY (modelled by a sort
permutation). -/
def buildTopProductsQuery (rows : List ProductFactRow) :
    List RankedProductRow :=
  let groups := filteredGroups rows
  List.insertionSort finalRel
    ((categoriesOf groups).flatMap (fun c => keptRowsFor groups c))

/-- `rankFrom` preserves length. -/
theorem rankFrom_length (l : List ProductGroup) :
    ∀ i, (rankFrom i l).length = l.length := by
  induction l with
  | nil => intro i; rfl
  | cons g gs ih =>
    intro i
    show (rankFrom i (g :: gs)).length = gs.length + 1
    rw [rankFrom]
    simp [ih]

/-- Keeping ranks at most `n` keeps exactly the first `n - i` rows. -/
theorem rankFrom_filter_le (n : ℕ) (l : List ProductGroup) :
    ∀ i, (rankFrom i l).filter (fun p => decide (p.1 ≤ n))
      = rankFrom i (l.take (n - i)) := by
  induction l with
  | nil => intro i; simp [rankFrom]
  | cons g gs ih =>
    intro i
    rw [rankFrom, List.filter_cons]
    by_cases h : i + 1 ≤ n
    · rw [if_pos (by simpa using h)]
      rw [ih (i + 1)]
      rw [show n - i = (n - (i + 1)) + 1 from by omega]
      rw [List.take_succ_cons, rankFrom]
    · rw [if_neg (by simpa using h)]
      rw [ih (i + 1)]
      rw [show n - (i + 1) = 0 from by omega, show n - i = 0 from by omega]
      rfl

/-- The ranks assigned by `rankFrom` are consecutive. -/
theorem rankFrom_map_fst (l : List ProductGroup) :
    ∀ i, (rankFrom i l).map Prod.fst = List.range' (i + 1) l.length := by
  induction l with
  | nil => intro i; rfl
  | cons g gs ih =>
    intro i
    rw [rankFrom]
    show (i + 1) :: (rankFrom (i + 1) gs).map Prod.fst = _
    rw [ih (i + 1)]
    rfl

/-- Membership in `rankFrom`: position determines both rank and row. -/
theorem mem_rankFrom (p : ℕ × ProductGroup) (l : List ProductGroup) :
    ∀ i, p ∈ rankFrom i l
      ↔ ∃ j, ∃ hj : j < l.length, p.1 = i + j + 1 ∧ p.2 = l.get ⟨j, hj⟩ := by
  induction l with
  | nil => intro i; simp [rankFrom]
  | cons g gs ih =>
    intro i
    rw [rankFrom]
    constructor
    · intro h
      rcases List.mem_cons.1 h with h | h
      · refine ⟨0, by simp, ?_, ?_⟩
        · rw [h]
        · rw [h]
          rfl
      · obtain ⟨j, hj, h1, h2⟩ := (ih (i + 1)).1 h
        refine ⟨j + 1, by simpa using hj, by omega, ?_⟩
        simpa using h2
    · rintro ⟨j, hj, h1, h2⟩
      cases j with
      | zero =>
        refine List.mem_cons.2 (Or.inl (Prod.ext ?_ ?_))
        · simpa using h1
        · simpa using h2
      | succ j =>
        refine List.mem_cons.2 (Or.inr ((ih (i + 1)).2 ⟨j, ?_, by omega, ?_⟩))
        · simpa using hj
        · simpa using h2

/-- Every kept row of a partition carries that partition's category. -/
theorem keptRowsFor_category (groups : List ProductGroup) (c : String) :
    ∀ r ∈ keptRowsFor groups c, r.product_category = c := by
  intro r hr
  obtain ⟨p, -, rfl⟩ := List.mem_map.1 hr
  rfl

/-- A partition keeps `min 5 (partition size)` rows. -/
theorem length_keptRowsFor (groups : List ProductGroup) (c : String) :
    (keptRowsFor groups c).length
      = min 5 ((groups.filter
          (fun g => decide (g.product_category = c))).length) := by
  unfold keptRowsFor rankedPartition
  rw [List.length_map, rankFrom_filter_le, rankFrom_length, List.length_take]
  rw [show (5 : ℕ) - 0 = 5 from rfl]
  rw [(List.perm_insertionSort prodRel _).length_eq]

/-- The kept ranks of a partition are exactly `1 … min 5 (partition
size)`. -/
theorem map_rank_keptRowsFor (groups : List ProductGroup) (c : String) :
    (keptRowsFor groups c).map (fun r => r.rank)
      = List.range' 1 (min 5 ((groups.filter
          (fun g => decide (g.product_category = c))).length)) := by
  unfold keptRowsFor rankedPartition
  rw [List.map_map]
  show (List.filter _ (rankFrom 0 _)).map Prod.fst = _
  rw [rankFrom_filter_le, rankFrom_map_fst, List.length_take]
  rw [show (5 : ℕ) - 0 = 5 from rfl]
  rw [(List.perm_insertionSort prodRel _).length_eq]

/-- Filtering the concatenated partitions by one category yields that
category's kept rows. -/
theorem filter_flatMap_kept (groups : List ProductGroup) (c : String) :
    ∀ cats : List String, cats.Nodup →
    ((cats.flatMap (fun x => keptRowsFor groups x)).filter
        (fun r => decide (r.product_category = c)))
      = if c ∈ cats then keptRowsFor groups c else [] := by
  intro cats
  induction cats with
  | nil => intro hnd; simp
  | cons c' cs ih =>
    intro hnd
    rw [List.flatMap_cons, List.filter_append, ih (List.Nodup.of_cons hnd)]
    by_cases hc : c' = c
    · subst hc
      have hfilter : (keptRowsFor groups c').filter
          (fun r => decide (r.product_category = c')) = keptRowsFor groups c' :=
        List.filter_eq_self.mpr (fun r hr => by
          simp [keptRowsFor_category groups c' r hr])
      have hnotmem : c' ∉ cs := (List.nodup_cons.1 hnd).1
      rw [hfilter, if_neg hnotmem, if_pos (List.mem_cons_self _ _)]
      simp
    · have hfilter : (keptRowsFor groups c').filter
          (fun r => decide (r.product_category = c)) = [] := by
        rw [List.filter_eq_nil_iff]
        intro r hr
        simp [keptRowsFor_category groups c' r hr, hc]
      rw [hfilter]
      by_cases hmem : c ∈ cs
      · rw [if_pos hmem, if_pos (List.mem_cons.2 (Or.inr hmem))]
        rfl
      · rw [if_neg hmem, if_neg (by
          intro hcc
          rcases List.mem_cons.1 hcc with h | h
          · exact hc h.symm
          · exact hmem h)]
        rfl

/-- Partition sizes of the `filtered` CTE match the distinct-key counts. -/
theorem partition_length_eq_distinct (rows : List ProductFactRow) (c : String) :
    ((filteredGroups rows).filter
        (fun g => decide (g.product_category = c))).length
      = ((distinctKeys rows).filter (fun k => decide (k.1 = c))).length := by
  unfold filteredGroups
  rw [List.filter_map, List.length_map]
  rfl

/-- Each kept row of one partition is the sorted partition's row at the
position its rank names. -/
theorem keptRowsFor_spec (groups : List ProductGroup) (c : String)
    (r : RankedProductRow) (hr : r ∈ keptRowsFor groups c) :
    ∃ j, ∃ hj : j < ((List.insertionSort prodRel (groups.filter
        (fun g => decide (g.product_category = c)))).take 5).length,
      r.rank = j + 1
      ∧ r.total_quantity = (((List.insertionSort prodRel (groups.filter
          (fun g => decide (g.product_category = c)))).take 5).get
            ⟨j, hj⟩).total_quantity
      ∧ r.product_reference = (((List.insertionSort prodRel (groups.filter
          (fun g => decide (g.product_category = c)))).take 5).get
            ⟨j, hj⟩).product_reference := by
  unfold keptRowsFor rankedPartition at hr
  rw [rankFrom_filter_le] at hr
  obtain ⟨p, hp, rfl⟩ := List.mem_map.1 hr
  obtain ⟨j, hj, h1, h2⟩ := (mem_rankFrom p _ 0).1 hp
  refine ⟨j, by simpa using hj, by simpa using h1, ?_, ?_⟩
  · show p.2.total_quantity = _
    rw [h2]
  · show p.2.product_reference = _
    rw [h2]

/-- C1: for every filtered dataset and every product category, the
ranking returns exactly `min 5 (number of distinct products in that
category)` rows for that category (the cutoff is per partition), the
ranks within a category are exactly `1 … min 5 k`, and a lower rank means
a strictly larger total quantity or an equal quantity with a
reference-ascending tie-break. -/
theorem c1_top_products_ranking (rows : List ProductFactRow) (c : String) :
    ((buildTopProductsQuery rows).filter
        (fun r => decide (r.product_category = c))).length
      = min 5 ((distinctKeys rows).filter (fun k => decide (k.1 = c))).length
    ∧ (((buildTopProductsQuery rows).filter
        (fun r => decide (r.product_category = c))).map (fun r => r.rank)).Perm
        (List.range' 1 (min 5 ((distinctKeys rows).filter
          (fun k => decide (k.1 = c))).length))
    ∧ ∀ r1 ∈ buildTopProductsQuery rows, ∀ r2 ∈ buildTopProductsQuery rows,
        r1.product_category = c → r2.product_category = c → r1.rank < r2.rank →
        (r2.total_quantity < r1.total_quantity
          ∨ (r1.total_quantity = r2.total_quantity
              ∧ optionRefLe r1.product_reference r2.product_reference)) := by
  have hperm : (buildTopProductsQuery rows).Perm
      ((categoriesOf (filteredGroups rows)).flatMap
        (fun x => keptRowsFor (filteredGroups rows) x)) := by
    unfold buildTopProductsQuery
    exact List.perm_insertionSort _ _
  have hnd : (categoriesOf (filteredGroups rows)).Nodup := List.nodup_dedup _
  have hfilter := filter_flatMap_kept (filteredGroups rows) c
    (categoriesOf (filteredGroups rows)) hnd
  have hfperm := hperm.filter (fun r => decide (r.product_category = c))
  have hempty : c ∉ categoriesOf (filteredGroups rows) →
      ((filteredGroups rows).filter
        (fun g => decide (g.product_category = c))).length = 0 := by
    intro hc
    rw [List.length_eq_zero, List.filter_eq_nil_iff]
    intro g hg hgc
    refine hc ?_
    unfold categoriesOf
    rw [List.mem_dedup]
    refine List.mem_map.2 ⟨g, hg, ?_⟩
    simpa using hgc
  refine ⟨?_, ?_, ?_⟩
  · rw [hfperm.length_eq, hfilter]
    by_cases hc : c ∈ categoriesOf (filteredGroups rows)
    · rw [if_pos hc, length_keptRowsFor, partition_length_eq_distinct]
    · rw [if_neg hc]
      rw [← partition_length_eq_distinct, hempty hc]
      rfl
  · refine List.Perm.trans (List.Perm.map _ hfperm) ?_
    rw [hfilter]
    by_cases hc : c ∈ categoriesOf (filteredGroups rows)
    · rw [if_pos hc, map_rank_keptRowsFor, partition_length_eq_distinct]
    · rw [if_neg hc]
      rw [← partition_length_eq_distinct, hempty hc]
      rfl
  · intro r1 hr1 r2 hr2 hc1 hc2 hrk
    have hmem : ∀ r ∈ buildTopProductsQuery rows, r.product_category = c →
        r ∈ keptRowsFor (filteredGroups rows) c := by
      intro r hr hcr
      have : r ∈ (categoriesOf (filteredGroups rows)).flatMap
          (fun x => keptRowsFor (filteredGroups rows) x) := hperm.mem_iff.1 hr
      obtain ⟨c', -, hrc'⟩ := List.mem_flatMap.1 this
      have := keptRowsFor_category _ _ _ hrc'
      rw [hcr] at this
      rw [this]
      exact hrc'
    obtain ⟨j1, hj1, hrk1, hq1, href1⟩ :=
      keptRowsFor_spec _ _ _ (hmem r1 hr1 hc1)
    obtain ⟨j2, hj2, hrk2, hq2, href2⟩ :=
      keptRowsFor_spec _ _ _ (hmem r2 hr2 hc2)
    have hjlt : j1 < j2 := by omega
    have hsorted : List.Pairwise prodRel ((List.insertionSort prodRel
        ((filteredGroups rows).filter
          (fun g => decide (g.product_category = c)))).take 5) :=
      List.Pairwise.sublist (List.take_sublist _ _)
        (List.sorted_insertionSort prodRel _)
    have hrel := List.pairwise_iff_get.1 hsorted ⟨j1, hj1⟩ ⟨j2, hj2⟩ hjlt
    rcases hrel with h | ⟨h, hrr⟩
    · left
      rw [hq1, hq2]
      exact h
    · right
      rw [hq1, hq2, href1, href2]
      exact ⟨h, hrr⟩

/-! ## C9: filter option lists -/

/-- `normalizeYearValue` from the most-sold-products module: integer
numbers and bigints pass through, `null` and non-integer numbers become
`null`.  (String-typed driver values are outside the modelled fragment;
Decimal objects do not occur in this function's input type.) -/
def normalizeYearValue : RawValue → Option ℤ
  | .null => none
  | .num (.fin q) => if q.den = 1 then some q.num else none
  | .num _ => none
  | .big n => some n
  | .dec _ => none

/-- Worker of the first-occurrence de-duplication, carrying the set of
already-seen elements exactly like the JavaScript `Set`-based loops. -/
def jsSetDedupAux {α : Type} [DecidableEq α] : List α → List α → List α
  | _, [] => []
  | seen, a :: l =>
    if a ∈ seen then jsSetDedupAux seen l else a :: jsSetDedupAux (a :: seen) l

/-- De-duplication keeping first occurrences (`Array.from(new Set(xs))` /
the seen-`Set` loop of `buildYearOptions`). -/
def jsSetDedup {α : Type} [DecidableEq α] (l : List α) : List α :=
  jsSetDedupAux [] l

/-- The selected-year injection step of `buildYearOptions`: push the
selected year when it is not already present. -/
def injectSelectedYear (years : List ℤ) : Option ℤ → List ℤ
  | none => years
  | some y => if y ∈ years then years else years ++ [y]

/-- `buildYearOptions` from the most-sold-products module: collect the
normalized distinct years, add the selected year when missing, sort
numerically descending (`(a, b) => b - a`). -/
def buildYearOptions (rows : List RawValue) (sel : Option ℤ) : List ℤ :=
  List.insertionSort (fun a b => b ≤ a)
    (injectSelectedYear (jsSetDedup (rows.filterMap normalizeYearValue)) sel)

/-- Year filter options of the most-sold-products payload:
`["all", ...yearOptions.map(String)]`.  The synthetic `"all"` entry is
modelled as `none` and the serialized years as `some`; this is faithful
because `String(n)` is injective on integers and never yields `"all"`. -/
def mostSoldYearFilterOptions (rows : List RawValue) (sel : Option ℤ) :
    List (Option ℤ) :=
  none :: (buildYearOptions rows sel).map some

/-- Character folding of the base-sensitivity collation model:
NFKD-decompose, drop combining marks, lowercase. -/
def baseFoldChars (s : String) : List Char :=
  ((s.data.flatMap nfkdChar).filter (fun c => !isCombiningMark c)).map
    Char.toLower

/-- Three-way comparison of naturals. -/
def cmpNat (a b : ℕ) : Ordering :=
  if a < b then .lt else if b < a then .gt else .eq

/-- Lexicographic code-point comparison of character lists. -/
def lexCharCmp : List Char → List Char → Ordering
  | [], [] => .eq
  | [], _ :: _ => .lt
  | _ :: _, [] => .gt
  | a :: as_, b :: bs =>
    match cmpNat a.toNat b.toNat with
    | .eq => lexCharCmp as_ bs
    | o => o

/-- Model of `String.prototype.localeCompare` with
`sensitivity: "base"`: case and diacritic differences compare equal,
everything else compares by code point of the folded strings.  (ICU
tailorings beyond case/diacritic insensitivity are not modelled.) -/
def localeCompareBase (a b : String) : Ordering :=
  lexCharCmp (baseFoldChars a) (baseFoldChars b)

/-- Sort relation induced by the base-collation comparator
(`(a, b) => a.localeCompare(b, undefined, sensitivity base)`). -/
def baseLe (a b : String) : Prop := localeCompareBase a b ≠ .gt

instance : DecidableRel baseLe := fun a b => by
  unfold baseLe; infer_instance

theorem cmpNat_lt_iff (a b : ℕ) : cmpNat a b = .lt ↔ a < b := by
  unfold cmpNat
  by_cases h : a < b
  · simp [h]
  · by_cases h2 : b < a <;> simp [h, h2]

theorem cmpNat_eq_iff (a b : ℕ) : cmpNat a b = .eq ↔ a = b := by
  unfold cmpNat
  by_cases h : a < b
  · simp [h]; omega
  · by_cases h2 : b < a <;> simp [h, h2] <;> omega

theorem cmpNat_gt_iff (a b : ℕ) : cmpNat a b = .gt ↔ b < a := by
  unfold cmpNat
  by_cases h : a < b
  · simp [h]; omega
  · by_cases h2 : b < a <;> simp [h, h2]

theorem lexCharCmp_refl (l : List Char) : lexCharCmp l l = .eq := by
  induction l with
  | nil => rfl
  | cons a l ih =>
    have h : cmpNat a.toNat a.toNat = .eq := (cmpNat_eq_iff _ _).mpr rfl
    simp [lexCharCmp, h, ih]

theorem lexCharCmp_nil_ne_gt (l : List Char) : lexCharCmp [] l ≠ .gt := by
  cases l <;> simp [lexCharCmp]

theorem lexCharCmp_total (as_ bs : List Char) :
    lexCharCmp as_ bs ≠ .gt ∨ lexCharCmp bs as_ ≠ .gt := by
  induction as_ generalizing bs with
  | nil => exact Or.inl (lexCharCmp_nil_ne_gt bs)
  | cons a as_ ih =>
    cases bs with
    | nil => exact Or.inr (lexCharCmp_nil_ne_gt _)
    | cons b bs =>
      rcases lt_trichotomy a.toNat b.toNat with h | h | h
      · left
        have h1 : cmpNat a.toNat b.toNat = .lt := (cmpNat_lt_iff _ _).mpr h
        simp [lexCharCmp, h1]
      · have h1 : cmpNat a.toNat b.toNat = .eq := (cmpNat_eq_iff _ _).mpr h
        have h2 : cmpNat b.toNat a.toNat = .eq := (cmpNat_eq_iff _ _).mpr h.symm
        rcases ih bs with h3 | h3
        · left; simp [lexCharCmp, h1, h3]
        · right; simp [lexCharCmp, h2, h3]
      · right
        have h1 : cmpNat b.toNat a.toNat = .lt := (cmpNat_lt_iff _ _).mpr h
        simp [lexCharCmp, h1]

theorem lexCharCmp_trans {as_ bs cs : List Char}
    (h1 : lexCharCmp as_ bs ≠ .gt) (h2 : lexCharCmp bs cs ≠ .gt) :
    lexCharCmp as_ cs ≠ .gt := by
  induction as_ generalizing bs cs with
  | nil => exact lexCharCmp_nil_ne_gt cs
  | cons a as_ ih =>
    cases bs with
    | nil => simp [lexCharCmp] at h1
    | cons b bs =>
      cases cs with
      | nil => simp [lexCharCmp] at h2
      | cons c cs =>
        rcases hab : cmpNat a.toNat b.toNat with _ | _ | _
        · -- a < b
          have hab' : a.toNat < b.toNat := (cmpNat_lt_iff _ _).mp hab
          rcases hbc : cmpNat b.toNat c.toNat with _ | _ | _
          · have hbc' : b.toNat < c.toNat := (cmpNat_lt_iff _ _).mp hbc
            have : cmpNat a.toNat c.toNat = .lt :=
              (cmpNat_lt_iff _ _).mpr (by omega)
            simp [lexCharCmp, this]
          · have hbc' : b.toNat = c.toNat := (cmpNat_eq_iff _ _).mp hbc
            have : cmpNat a.toNat c.toNat = .lt :=
              (cmpNat_lt_iff _ _).mpr (by omega)
            simp [lexCharCmp, this]
          · exact absurd (by simp [lexCharCmp, hbc]) h2
        · -- a = b
          have hab' : a.toNat = b.toNat := (cmpNat_eq_iff _ _).mp hab
          rcases hbc : cmpNat b.toNat c.toNat with _ | _ | _
          · have hbc' : b.toNat < c.toNat := (cmpNat_lt_iff _ _).mp hbc
            have : cmpNat a.toNat c.toNat = .lt :=
              (cmpNat_lt_iff _ _).mpr (by omega)
            simp [lexCharCmp, this]
          · have hbc' : b.toNat = c.toNat := (cmpNat_eq_iff _ _).mp hbc
            have hac : cmpNat a.toNat c.toNat = .eq :=
              (cmpNat_eq_iff _ _).mpr (by omega)
            have h1' : lexCharCmp as_ bs ≠ .gt := by
              simpa [lexCharCmp, hab] using h1
            have h2' : lexCharCmp bs cs ≠ .gt := by
              simpa [lexCharCmp, hbc] using h2
            simpa [lexCharCmp, hac] using ih h1' h2'
          · exact absurd (by simp [lexCharCmp, hbc]) h2
        · exact absurd (by simp [lexCharCmp, hab]) h1

instance : IsTotal String baseLe :=
  ⟨fun a b => lexCharCmp_total (baseFoldChars a) (baseFoldChars b)⟩

instance : IsTrans String baseLe :=
  ⟨fun _ _ _ h1 h2 => lexCharCmp_trans h1 h2⟩

theorem localeCompareBase_refl (s : String) : localeCompareBase s s = .eq :=
  lexCharCmp_refl _

theorem mem_jsSetDedupAux {α : Type} [DecidableEq α] (l : List α) :
    ∀ (seen : List α) (x : α),
      x ∈ jsSetDedupAux seen l ↔ x ∈ l ∧ x ∉ seen := by
  induction l with
  | nil => intro seen x; simp [jsSetDedupAux]
  | cons a l ih =>
    intro seen x
    by_cases ha : a ∈ seen
    · rw [jsSetDedupAux, if_pos ha, ih]
      constructor
      · rintro ⟨h1, h2⟩; exact ⟨List.mem_cons_of_mem _ h1, h2⟩
      · rintro ⟨h1, h2⟩
        rcases List.mem_cons.mp h1 with h | h
        · exact absurd (h ▸ ha) h2
        · exact ⟨h, h2⟩
    · rw [jsSetDedupAux, if_neg ha]
      by_cases hx : x = a
      · subst hx; simp [ha]
      · rw [List.mem_cons, List.mem_cons]
        simp only [hx, false_or, ih, List.mem_cons]

theorem nodup_jsSetDedupAux {α : Type} [DecidableEq α] (l : List α) :
    ∀ seen : List α, (jsSetDedupAux seen l).Nodup := by
  induction l with
  | nil => intro seen; simp [jsSetDedupAux]
  | cons a l ih =>
    intro seen
    by_cases ha : a ∈ seen
    · rw [jsSetDedupAux, if_pos ha]; exact ih seen
    · rw [jsSetDedupAux, if_neg ha]
      refine List.nodup_cons.mpr ⟨fun hmem => ?_, ih _⟩
      exact ((mem_jsSetDedupAux l _ _).mp hmem).2 (List.mem_cons_self a seen)

theorem mem_jsSetDedup {α : Type} [DecidableEq α] (l : List α) (x : α) :
    x ∈ jsSetDedup l ↔ x ∈ l := by
  rw [jsSetDedup, mem_jsSetDedupAux]; simp

theorem nodup_jsSetDedup {α : Type} [DecidableEq α] (l : List α) :
    (jsSetDedup l).Nodup := nodup_jsSetDedupAux l []

theorem mem_injectSelectedYear (years : List ℤ) (sel : Option ℤ) (z : ℤ) :
    z ∈ injectSelectedYear years sel ↔ z ∈ years ∨ sel = some z := by
  cases sel with
  | none => simp [injectSelectedYear]
  | some y =>
    simp only [injectSelectedYear]
    by_cases hy : y ∈ years
    · rw [if_pos hy]
      constructor
      · exact fun h => Or.inl h
      · rintro (h | h)
        · exact h
        · cases Option.some.inj h; exact hy
    · rw [if_neg hy]
      simp [List.mem_append, eq_comm]

theorem nodup_injectSelectedYear (years : List ℤ) (sel : Option ℤ)
    (h : years.Nodup) : (injectSelectedYear years sel).Nodup := by
  cases sel with
  | none => exact h
  | some y =>
    simp only [injectSelectedYear]
    by_cases hy : y ∈ years
    · rw [if_pos hy]; exact h
    · rw [if_neg hy]
      rw [List.nodup_append]
      exact ⟨h, List.nodup_singleton y, fun a ha hb => by
        rcases List.mem_singleton.mp hb with rfl; exact hy ha⟩

theorem mem_buildYearOptions (rows : List RawValue) (sel : Option ℤ) (y : ℤ) :
    y ∈ buildYearOptions rows sel ↔
      some y ∈ rows.map normalizeYearValue ∨ sel = some y := by
  unfold buildYearOptions
  rw [(List.perm_insertionSort _ _).mem_iff, mem_injectSelectedYear,
    mem_jsSetDedup]
  simp [List.mem_filterMap, List.mem_map]

theorem nodup_buildYearOptions (rows : List RawValue) (sel : Option ℤ) :
    (buildYearOptions rows sel).Nodup := by
  unfold buildYearOptions
  rw [(List.perm_insertionSort _ _).nodup_iff]
  exact nodup_injectSelectedYear _ _ (nodup_jsSetDedup _)

theorem sorted_desc_buildYearOptions (rows : List RawValue) (sel : Option ℤ) :
    (buildYearOptions rows sel).Pairwise (fun a b => b < a) := by
  have hs := List.sorted_insertionSort (fun a b : ℤ => b ≤ a)
    (injectSelectedYear (jsSetDedup (rows.filterMap normalizeYearValue)) sel)
  have hn := nodup_buildYearOptions rows sel
  unfold buildYearOptions at hn ⊢
  exact (hs.and hn).imp (fun h => lt_of_le_of_ne h.1 (Ne.symm h.2))

/-- `unique` in `buildCategoryOptions` before the selected-category
unshift: non-null non-blank categories, de-duplicated exactly, sorted by
the base-sensitivity collation. -/
def categoryOptionCore (rows : List (Option String)) : List String :=
  List.insertionSort baseLe
    (jsSetDedup ((rows.filterMap id).filter (fun c => jsTrim c != "")))

/-- `buildCategoryOptions` from the most-sold-products module: the sorted
distinct categories, with the selected category unshifted onto the front
when no base-collation-equal entry is already present. -/
def buildCategoryOptions (rows : List (Option String)) (sel : Option String) :
    List String :=
  match sel with
  | none => categoryOptionCore rows
  | some s =>
    if ∃ c ∈ categoryOptionCore rows, localeCompareBase c s = .eq then
      categoryOptionCore rows
    else s :: categoryOptionCore rows

/-- Category filter options of the most-sold-products payload:
`["all", ...categoryOptions]`. -/
def mostSoldCategoryFilterOptions (rows : List (Option String))
    (sel : Option String) : List String :=
  "all" :: buildCategoryOptions rows sel

/-- `Math.trunc` on a rational. -/
def ratTrunc (q : ℚ) : ℤ := Int.tdiv q.num (q.den : ℤ)

/-- `MIN_ALLOWED_YEAR` from the commercial-responsibles module. -/
def MIN_ALLOWED_YEAR : ℤ := 1900

/-- `MAX_ALLOWED_YEAR` from the commercial-responsibles module. -/
def MAX_ALLOWED_YEAR : ℤ := 2200

/-- `inAllowedYearRange` from the commercial-responsibles module. -/
def inAllowedYearRange (year : ℤ) : Bool :=
  decide (MIN_ALLOWED_YEAR ≤ year ∧ year ≤ MAX_ALLOWED_YEAR)

/-- `normalizeYearValue` from the commercial-responsibles module
(distinct from the most-sold-products normalizer of the same name):
finite numbers are `Math.trunc`-truncated and then subjected to the
`inAllowedYearRange` 1900-2200 check; `null` and non-finite numbers
become `null`.  The bigint branch converts, truncates (a no-op on the
integer) and applies the same range check.  (String-typed driver values
are outside the modelled fragment.) -/
def commercialNormalizeYearValue : RawValue → Option ℤ
  | .null => none
  | .num (.fin q) =>
    if inAllowedYearRange (ratTrunc q) then some (ratTrunc q) else none
  | .num _ => none
  | .big n => if inAllowedYearRange n then some n else none
  | .dec _ => none

/-- Pure fragment of `loadAvailableYears` in the commercial-responsibles
module: normalize the distinct years with that module's own
`normalizeYearValue`, drop nulls, de-duplicate, sort ascending.  The
result is used verbatim as `filters.year.options`: no synthetic "all"
entry is added and the selected year is not injected. -/
def commercialYearOptions (rows : List RawValue) : List ℤ :=
  List.insertionSort (fun a b => a ≤ b)
    (jsSetDedup (rows.filterMap commercialNormalizeYearValue))

theorem pairwise_categoryOptionCore (rows : List (Option String)) :
    (categoryOptionCore rows).Pairwise baseLe :=
  List.sorted_insertionSort baseLe _

theorem nodup_categoryOptionCore (rows : List (Option String)) :
    (categoryOptionCore rows).Nodup := by
  unfold categoryOptionCore
  rw [(List.perm_insertionSort _ _).nodup_iff]
  exact nodup_jsSetDedup _

theorem nodup_buildCategoryOptions (rows : List (Option String))
    (sel : Option String) : (buildCategoryOptions rows sel).Nodup := by
  cases sel with
  | none => exact nodup_categoryOptionCore rows
  | some s =>
    simp only [buildCategoryOptions]
    by_cases h : ∃ c ∈ categoryOptionCore rows, localeCompareBase c s = .eq
    · rw [if_pos h]; exact nodup_categoryOptionCore rows
    · rw [if_neg h]
      refine List.nodup_cons.mpr ⟨fun hmem => ?_, nodup_categoryOptionCore rows⟩
      exact h ⟨s, hmem, localeCompareBase_refl s⟩

theorem base_match_buildCategoryOptions (rows : List (Option String))
    (s : String) :
    ∃ c ∈ buildCategoryOptions rows (some s), localeCompareBase c s = .eq := by
  simp only [buildCategoryOptions]
  by_cases h : ∃ c ∈ categoryOptionCore rows, localeCompareBase c s = .eq
  · rw [if_pos h]; exact h
  · rw [if_neg h]
    exact ⟨s, List.mem_cons_self _ _, localeCompareBase_refl s⟩

theorem sorted_asc_commercialYearOptions (rows : List RawValue) :
    (commercialYearOptions rows).Pairwise (fun a b => a < b) := by
  have hs := List.sorted_insertionSort (fun a b : ℤ => a ≤ b)
    (jsSetDedup (rows.filterMap commercialNormalizeYearValue))
  have hn : (commercialYearOptions rows).Nodup := by
    unfold commercialYearOptions
    rw [(List.perm_insertionSort _ _).nodup_iff]
    exact nodup_jsSetDedup _
  unfold commercialYearOptions at hn ⊢
  exact (hs.and hn).imp (fun h => lt_of_le_of_ne h.1 h.2)

theorem mem_commercialYearOptions (rows : List RawValue) (y : ℤ) :
    y ∈ commercialYearOptions rows ↔
      some y ∈ rows.map commercialNormalizeYearValue := by
  unfold commercialYearOptions
  rw [(List.perm_insertionSort _ _).mem_iff, mem_jsSetDedup]
  simp [List.mem_filterMap, List.mem_map]

theorem commercialNormalizeYearValue_range (r : RawValue) (y : ℤ)
    (h : commercialNormalizeYearValue r = some y) :
    MIN_ALLOWED_YEAR ≤ y ∧ y ≤ MAX_ALLOWED_YEAR := by
  cases r with
  | null => simp [commercialNormalizeYearValue] at h
  | num x =>
    cases x with
    | fin q =>
      simp only [commercialNormalizeYearValue] at h
      by_cases hr : inAllowedYearRange (ratTrunc q)
      · rw [if_pos hr] at h
        cases Option.some.inj h
        simpa [inAllowedYearRange] using hr
      · rw [if_neg hr] at h
        exact absurd h (by simp)
    | nan => simp [commercialNormalizeYearValue] at h
    | posInf => simp [commercialNormalizeYearValue] at h
    | negInf => simp [commercialNormalizeYearValue] at h
  | big n =>
    simp only [commercialNormalizeYearValue] at h
    by_cases hr : inAllowedYearRange n
    · rw [if_pos hr] at h
      cases Option.some.inj h
      simpa [inAllowedYearRange] using hr
    · rw [if_neg hr] at h
      exact absurd h (by simp)
  | dec d => simp [commercialNormalizeYearValue] at h

/-- C9 counterexample: the commercial-responsibles year filter options are
the bare distinct years sorted ascending - for rows with years 2021 and
2023 and selected year 2024 the options are `[2021, 2023]`: no synthetic
"all" entry (the list holds integers only), the selected year is absent,
and the order is ascending rather than the claimed numeric descending.
The category options violate the sort clause too: a missing selected
category is unshifted onto the front (`["Zebra", "Apple"]` although
"Apple" collates first), and the payload's literal "all" prefix
duplicates a genuine "all" category instead of being de-duplicated.
The last conjunct exercises the commercial normalizer's `Math.trunc`
and 1900-2200 range check: 2023.5 is truncated to 2023 and 2500 is
dropped. -/
theorem c9_counterexample :
    commercialYearOptions [RawValue.big 2021, RawValue.big 2023] =
      [2021, 2023] ∧
    (2024 : ℤ) ∉ commercialYearOptions [RawValue.big 2021, RawValue.big 2023] ∧
    buildCategoryOptions [some "Apple"] (some "Zebra") = ["Zebra", "Apple"] ∧
    localeCompareBase "Apple" "Zebra" = .lt ∧
    mostSoldCategoryFilterOptions [some "all"] none = ["all", "all"] ∧
    commercialYearOptions
      [RawValue.num (JsNum.fin (mkRat 4047 2)), RawValue.big 2500] =
      [2023] := by
  refine ⟨?_, ?_, ?_, ?_, ?_, ?_⟩ <;> decide

/-- C9 (amended): the most-sold-products year options contain the
synthetic "all" entry and the selected year, are de-duplicated, sorted
numerically descending, and hold exactly the normalized query years plus
the selection; the category options contain "all", a base-collation match
for the selection, and are de-duplicated, but the selected category is
prepended in front of the base-collation-sorted core when missing (which
can break the sorted order); the commercial-responsibles year options are
just the distinct years normalized by that module's truncating,
range-checking normalizer, sorted ascending - all within 1900-2200,
without any "all" entry and without injecting the selected year. -/
theorem c9_amended (yrows : List RawValue) (sel : ℤ)
    (crows : List (Option String)) (s : String) :
    (none ∈ mostSoldYearFilterOptions yrows (some sel) ∧
      some sel ∈ mostSoldYearFilterOptions yrows (some sel) ∧
      (mostSoldYearFilterOptions yrows (some sel)).Nodup ∧
      (buildYearOptions yrows (some sel)).Pairwise (fun a b => b < a) ∧
      ∀ y : ℤ, y ∈ buildYearOptions yrows (some sel) ↔
        some y ∈ yrows.map normalizeYearValue ∨ y = sel) ∧
    ("all" ∈ mostSoldCategoryFilterOptions crows (some s) ∧
      (∃ c ∈ buildCategoryOptions crows (some s),
        localeCompareBase c s = .eq) ∧
      (buildCategoryOptions crows (some s)).Nodup ∧
      (categoryOptionCore crows).Pairwise baseLe ∧
      (buildCategoryOptions crows (some s) = categoryOptionCore crows ∨
        buildCategoryOptions crows (some s) = s :: categoryOptionCore crows)) ∧
    ((commercialYearOptions yrows).Pairwise (fun a b => a < b) ∧
      (∀ y : ℤ, y ∈ commercialYearOptions yrows ↔
        some y ∈ yrows.map commercialNormalizeYearValue) ∧
      ∀ y : ℤ, y ∈ commercialYearOptions yrows →
        MIN_ALLOWED_YEAR ≤ y ∧ y ≤ MAX_ALLOWED_YEAR) := by
  refine ⟨⟨?_, ?_, ?_, ?_, ?_⟩, ⟨?_, ?_, ?_, ?_, ?_⟩, ?_, ?_, ?_⟩
  · exact List.mem_cons_self _ _
  · exact List.mem_cons_of_mem _
      (List.mem_map_of_mem some ((mem_buildYearOptions _ _ _).mpr (Or.inr rfl)))
  · refine List.nodup_cons.mpr ⟨?_, ?_⟩
    · simp
    · exact (nodup_buildYearOptions yrows (some sel)).map
        (Option.some_injective ℤ)
  · exact sorted_desc_buildYearOptions yrows (some sel)
  · intro y
    rw [mem_buildYearOptions]
    simp [eq_comm]
  · exact List.mem_cons_self _ _
  · exact base_match_buildCategoryOptions crows s
  · exact nodup_buildCategoryOptions crows (some s)
  · exact pairwise_categoryOptionCore crows
  · simp only [buildCategoryOptions]
    by_cases h : ∃ c ∈ categoryOptionCore crows, localeCompareBase c s = .eq
    · rw [if_pos h]; exact Or.inl rfl
    · rw [if_neg h]; exact Or.inr rfl
  · exact sorted_asc_commercialYearOptions yrows
  · exact fun y => mem_commercialYearOptions yrows y
  · intro y hy
    rcases List.mem_map.mp ((mem_commercialYearOptions yrows y).mp hy) with
      ⟨r, _, hr⟩
    exact commercialNormalizeYearValue_range r y hr

/-- Witness for the amended C9 theorem at a concrete input. -/
theorem c9_amended_witness :
    (2023 : ℤ) ∈ commercialYearOptions [RawValue.big 2023] ∧
    MIN_ALLOWED_YEAR ≤ (2023 : ℤ) ∧ (2023 : ℤ) ≤ MAX_ALLOWED_YEAR :=
  ⟨by decide,
    (c9_amended [RawValue.big 2023] 2023 [] "x").2.2.2.2 2023 (by decide)⟩

/-! ## C10: query-parameter validation -/

/-- ASCII decimal digit test. -/
def isDigitChar (c : Char) : Bool := decide ('0' ≤ c ∧ c ≤ '9')

/-- Longest leading run of decimal digits, and the remaining characters. -/
def takeDigits : List Char → List Char × List Char
  | [] => ([], [])
  | c :: cs =>
    if isDigitChar c then
      match takeDigits cs with
      | (d, r) => (c :: d, r)
    else ([], c :: cs)

/-- Value of an unsigned JavaScript decimal literal (digits with an
optional fractional part, at least one digit overall), as a
numerator/denominator pair; `none` when the text is not such a literal. -/
def decLit? (l : List Char) : Option (ℕ × ℕ) :=
  match takeDigits l with
  | (ip, []) => if ip = [] then none else some (digitsVal ip, 1)
  | (ip, c :: r2) =>
    if c = '.' then
      match takeDigits r2 with
      | (fp, []) =>
        if ip = [] ∧ fp = [] then none
        else some (digitsVal ip * 10 ^ fp.length + digitsVal fp, 10 ^ fp.length)
      | _ => none
    else none

/-- Model of JavaScript `Number(string)` on the fragment exercised by the
query-parameter parsers: whitespace-trimmed optionally signed decimal
literals and `Infinity`; the empty string is 0 and everything else is
NaN.  (Hexadecimal, binary and exponent literals do not occur in the
routes' parameters and are not modelled.) -/
def jsStringToNumber (s : String) : JsNum :=
  match (jsTrim s).data with
  | [] => JsNum.fin 0
  | '-' :: r =>
    if r = ['I', 'n', 'f', 'i', 'n', 'i', 't', 'y'] then JsNum.negInf
    else
      match decLit? r with
      | some (m, d) => JsNum.fin (mkRat (-(m : ℤ)) d)
      | none => JsNum.nan
  | '+' :: r =>
    if r = ['I', 'n', 'f', 'i', 'n', 'i', 't', 'y'] then JsNum.posInf
    else
      match decLit? r with
      | some (m, d) => JsNum.fin (mkRat (m : ℤ) d)
      | none => JsNum.nan
  | l =>
    if l = ['I', 'n', 'f', 'i', 'n', 'i', 't', 'y'] then JsNum.posInf
    else
      match decLit? l with
      | some (m, d) => JsNum.fin (mkRat (m : ℤ) d)
      | none => JsNum.nan

/-- ASCII lowercasing of a string (`value.toLowerCase()` on the inputs at
hand). -/
def jsToLowerStr (s : String) : String := ⟨s.data.map Char.toLower⟩

/-- The message of the `BadRequestError` thrown by `parseYear`. -/
def yearErrorMessage : String :=
  "Invalid year parameter. Use 'all' or a four-digit year between 1900 and 2200."

/-- `parseYear` from the most-sold-products module: absent, blank or
"all" input selects all years; otherwise the value must be an integer
between 1900 and 2200 or a `BadRequestError` is thrown (modelled as
`Except.error`).  `none` in the result encodes the "all" filter. -/
def parseYear (value : Option String) : Except String (Option ℤ) :=
  match value with
  | none => .ok none
  | some s =>
    if jsTrim s = "" ∨ jsToLowerStr s = "all" then .ok none
    else
      match jsStringToNumber s with
      | JsNum.fin q =>
        if q.den = 1 ∧ 1900 ≤ q.num ∧ q.num ≤ 2200 then .ok (some q.num)
        else .error yearErrorMessage
      | _ => .error yearErrorMessage

/-- `clampInteger` from the shared numeric helpers, on the integer inputs
the call sites provide (the `Math.round` branch for non-integers is dead
at those call sites). -/
def clampInteger (value mn mx : ℤ) : ℤ :=
  if value < mn then mn else if mx < value then mx else value

/-- `parseBoundedInteger` from the shared numeric helpers: absent or
blank input yields the clamped fallback, and so does any text that does
not parse to an integer - no error is ever raised. -/
def parseBoundedInteger (raw : Option String) (fallback mn mx : ℤ) : ℤ :=
  match raw with
  | none => clampInteger fallback mn mx
  | some s =>
    if jsTrim s = "" then clampInteger fallback mn mx
    else
      match jsStringToNumber s with
      | JsNum.fin q =>
        if q.den = 1 then clampInteger q.num mn mx
        else clampInteger fallback mn mx
      | _ => clampInteger fallback mn mx

/-- `parseIntParam` from the transactions route: absent or empty input
yields the fallback, non-finite parses yield the fallback, and any finite
parse - integer or not, in range or not - is clamped into `[mn, mx]`
without error. -/
def parseIntParam (raw : Option String) (fallback mn mx : ℚ) : ℚ :=
  match raw with
  | none => fallback
  | some s =>
    if s = "" then fallback
    else
      match jsStringToNumber s with
      | JsNum.fin n => min (max n mn) mx
      | _ => fallback

/-- `DEFAULT_TOP_LIMIT` from the top-partners module. -/
def DEFAULT_TOP_LIMIT : ℤ := 5

/-- `MAX_TOP_LIMIT` from the top-partners module. -/
def MAX_TOP_LIMIT : ℤ := 25

/-- `normalizeLimit` from the top-partners module: a missing or
non-finite limit becomes the default, and a finite limit is truncated and
silently clamped into `[1, MAX_TOP_LIMIT]`. -/
def normalizeLimit (limit : Option JsNum) : ℤ :=
  match limit with
  | some (JsNum.fin q) =>
    if ratTrunc q < 1 then 1
    else if MAX_TOP_LIMIT < ratTrunc q then MAX_TOP_LIMIT
    else ratTrunc q
  | _ => DEFAULT_TOP_LIMIT

/-- C10 counterexample: non-empty invalid parameter text is silently
coerced to a default by the bounded-integer parsers - `parseBoundedInteger
("abc")` and `parseIntParam("abc")` return the (clamped) fallback instead
of raising, and `normalizeLimit` silently clamps non-positive limits to 1
- while `parseYear("abc")` does raise the documented validation error.
The claim's universal "never silently coerced" is therefore false. -/
theorem c10_counterexample :
    parseBoundedInteger (some "abc") 25 1 200 = 25 ∧
    parseIntParam (some "abc") 50 1 500 = 50 ∧
    normalizeLimit (some (JsNum.fin 0)) = 1 ∧
    normalizeLimit (some (JsNum.fin (mkRat (-7) 1))) = 1 ∧
    parseYear (some "abc") = Except.error yearErrorMessage := by
  refine ⟨?_, ?_, ?_, ?_, ?_⟩
  · decide
  · decide
  · decide
  · decide
  · rfl

/-- C10 (amended): `parseYear` behaves as claimed - absent, blank or
"all" input falls back to the all-years default and every other input
that is not an integer in 1900..2200 raises the documented validation
error - but the bounded-integer parsers never raise: `parseBoundedInteger`
returns the clamped fallback on blank or non-integer text,
`parseIntParam` returns the fallback on non-numeric text and silently
clamps any finite value into its bounds, and `normalizeLimit` maps
non-finite limits to the default and silently clamps finite limits into
`[1, MAX_TOP_LIMIT]`. -/
theorem c10_amended (s : String) (f mn mx : ℤ) (g lo hi : ℚ) (q : ℚ) :
    (parseYear none = .ok none) ∧
    (jsTrim s = "" → parseYear (some s) = .ok none) ∧
    (jsStringToNumber s = JsNum.nan → jsTrim s ≠ "" → jsToLowerStr s ≠ "all" →
      parseYear (some s) = .error yearErrorMessage) ∧
    (∀ v : ℚ, jsStringToNumber s = JsNum.fin v → jsTrim s ≠ "" →
      jsToLowerStr s ≠ "all" → (v.den ≠ 1 ∨ v.num < 1900 ∨ 2200 < v.num) →
      parseYear (some s) = .error yearErrorMessage) ∧
    (jsStringToNumber s = JsNum.nan →
      parseBoundedInteger (some s) f mn mx = clampInteger f mn mx) ∧
    (jsTrim s = "" →
      parseBoundedInteger (some s) f mn mx = clampInteger f mn mx) ∧
    (jsStringToNumber s = JsNum.nan → s ≠ "" →
      parseIntParam (some s) g lo hi = g) ∧
    (∀ v : ℚ, jsStringToNumber s = JsNum.fin v → s ≠ "" →
      parseIntParam (some s) g lo hi = min (max v lo) hi) ∧
    (normalizeLimit none = DEFAULT_TOP_LIMIT) ∧
    (normalizeLimit (some JsNum.nan) = DEFAULT_TOP_LIMIT) ∧
    (normalizeLimit (some (JsNum.fin q)) =
      max 1 (min MAX_TOP_LIMIT (ratTrunc q))) := by
  refine ⟨rfl, ?_, ?_, ?_, ?_, ?_, ?_, ?_, rfl, rfl, ?_⟩
  · intro ht
    rw [parseYear, if_pos (Or.inl ht)]
  · intro hn ht hl
    rw [parseYear, if_neg ?_, hn]
    rintro (h | h)
    · exact ht h
    · exact hl h
  · intro v hv ht hl hcond
    rw [parseYear, if_neg ?_, hv]
    · exact if_neg (by
        rintro ⟨h1, h2, h3⟩
        rcases hcond with h | h | h
        · exact h h1
        · omega
        · omega)
    · rintro (h | h)
      · exact ht h
      · exact hl h
  · intro hn
    by_cases ht : jsTrim s = ""
    · rw [parseBoundedInteger, if_pos ht]
    · rw [parseBoundedInteger, if_neg ht, hn]
  · intro ht
    rw [parseBoundedInteger, if_pos ht]
  · intro hn hs
    rw [parseIntParam, if_neg hs, hn]
  · intro v hv hs
    rw [parseIntParam, if_neg hs, hv]
  · show (if ratTrunc q < 1 then 1
      else if MAX_TOP_LIMIT < ratTrunc q then MAX_TOP_LIMIT
      else ratTrunc q) = max 1 (min MAX_TOP_LIMIT (ratTrunc q))
    unfold MAX_TOP_LIMIT
    by_cases h1 : ratTrunc q < 1
    · rw [if_pos h1]; omega
    · rw [if_neg h1]
      by_cases h2 : (25 : ℤ) < ratTrunc q
      · rw [if_pos h2]; omega
      · rw [if_neg h2]; omega

/-- Witness for the amended C10 theorem at concrete inputs. -/
theorem c10_amended_witness :
    parseYear (some "1899") = Except.error yearErrorMessage ∧
    parseYear (some "2024") = Except.ok (some 2024) ∧
    parseBoundedInteger (some "abc") 25 1 200 = clampInteger 25 1 200 ∧
    parseIntParam (some "abc") 50 1 500 = 50 ∧
    normalizeLimit (some (JsNum.fin 0)) = max 1 (min MAX_TOP_LIMIT (ratTrunc 0)) := by
  refine ⟨?_, ?_, ?_, ?_, ?_⟩
  · exact (c10_amended "1899" 25 1 200 50 1 500 0).2.2.2.1 (mkRat 1899 1)
      (by decide) (by decide) (by decide) (by decide)
  · rfl
  · exact (c10_amended "abc" 25 1 200 50 1 500 0).2.2.2.2.1 (by decide)
  · exact (c10_amended "abc" 25 1 200 50 1 500 0).2.2.2.2.2.2.1
      (by decide) (by decide)
  · exact (c10_amended "abc" 25 1 200 50 1 500 0).2.2.2.2.2.2.2.2.2.2
